import Mathlib

/-
Verification of the py-file-versioning engine: a shallow embedding of
src/py_file_versioning/versioning.py and src/py_file_versioning/_internal.py.

Strings are modelled as List Char.  Python str.split (for a non-empty
separator) is modelled by pySplit; Python int() over digit strings by
strToNat; datetime.strptime with format YYYYMMDD.HHMMSS by strptimeTS
(for a 15-character candidate the CPython regex admits only fixed-width
fields, so the parse is a fixed-position read plus range validation).
The versions directory is a flat association list from filename to file
data; Path.glob with a pattern of the form PREFIX ++ "*" is prefix
filtering (glob metacharacters inside names are not modelled).
-/

namespace PFV

abbrev Str := List Char

/-- Index of the first occurrence of the pattern in the string, if any. -/
def findOccur (pat : Str) (s : Str) : Option Nat :=
  (List.range (s.length + 1)).find? (fun i => pat.isPrefixOf (s.drop i))

/-- Python str.split, fuelled so that it is structurally recursive; the fuel
never runs out for a non-empty separator because every step consumes at least
one character. -/
def pySplitAux (delim : Str) : Nat → Str → List Str
  | 0, s => [s]
  | Nat.succ fuel, s =>
    match findOccur delim s with
    | Option.none => [s]
    | some i => s.take i :: pySplitAux delim fuel (s.drop (i + delim.length))

/-- Python str.split for a non-empty separator: leftmost, non-overlapping. -/
def pySplit (delim : Str) (s : Str) : List Str :=
  if delim = [] then [s] else pySplitAux delim s.length s

/-- Concatenate the pieces back, putting the separator between them. -/
def joinSep (delim : Str) : List Str → Str
  | [] => []
  | [x] => x
  | x :: y :: rest => x ++ delim ++ joinSep delim (y :: rest)

def isDigitChar (c : Char) : Bool :=
  48 ≤ c.toNat && c.toNat ≤ 57

/-- Python int() on a string of ASCII digits. -/
def strToNat (l : Str) : Nat :=
  l.foldl (fun a c => a * 10 + (c.toNat - 48)) 0

/-- Python f-string 03d padding, for values up to 999. -/
def pad3 (n : Nat) : Str :=
  [Char.ofNat (48 + n / 100 % 10), Char.ofNat (48 + n / 10 % 10), Char.ofNat (48 + n % 10)]

/-- _TimezoneFormat from _internal.py. -/
inductive Tz
  | utc
  | loc
deriving DecidableEq, Repr

def Tz.val : Tz → Str
  | Tz.utc => "utc".toList
  | Tz.loc => "loc".toList

/-- _TimestampSource from _internal.py. -/
inductive Src
  | mod
  | sto
deriving DecidableEq, Repr

def Src.val : Src → Str
  | Src.mod => "mod".toList
  | Src.sto => "sto".toList

/-- _CompressionType from _internal.py. -/
inductive Comp
  | NONE
  | GZIP
  | BZ2
  | XZ
deriving DecidableEq, Repr

def Comp.val : Comp → Str
  | Comp.NONE => "none".toList
  | Comp.GZIP => "gz".toList
  | Comp.BZ2 => "bz2".toList
  | Comp.XZ => "xz".toList

/-- Python exception kinds that the engine can raise. -/
inductive PyErr
  | vError (msg : Str)
  | valueError (msg : Str)
  | runtimeError (msg : Str)
  | osError (msg : Str)
  | notFound (msg : Str)
deriving DecidableEq, Repr

instance {ε α : Type} [DecidableEq ε] [DecidableEq α] : DecidableEq (Except ε α) :=
  fun a b =>
    match a, b with
    | Except.error e, Except.error f =>
      if h : e = f then Decidable.isTrue (by rw [h])
      else Decidable.isFalse (fun c => h (by cases c; rfl))
    | Except.ok x, Except.ok y =>
      if h : x = y then Decidable.isTrue (by rw [h])
      else Decidable.isFalse (fun c => h (by cases c; rfl))
    | Except.error _, Except.ok _ => Decidable.isFalse (fun c => Except.noConfusion c)
    | Except.ok _, Except.error _ => Decidable.isFalse (fun c => Except.noConfusion c)

/-- Whether a Python-style computation finished without raising. -/
def isOkE {ε α : Type} : Except ε α → Bool
  | Except.ok _ => true
  | Except.error _ => false

/-- _FileVersioningConfig (versions_path is modelled as the directory itself). -/
structure Config where
  delimiter : Str
  timezone_format : Tz
  compression : Comp
  max_versions : Option Nat
  timestamp_format : Src
deriving DecidableEq, Repr

/-- Parsed value of a YYYYMMDD.HHMMSS timestamp, as datetime.strptime produces. -/
structure DT where
  y : Nat
  mo : Nat
  d : Nat
  h : Nat
  mi : Nat
  s : Nat
deriving DecidableEq, Repr

def isLeap (y : Nat) : Bool :=
  y % 4 == 0 && (y % 100 != 0 || y % 400 == 0)

def daysInMonth (y mo : Nat) : Nat :=
  if mo = 2 then (if isLeap y then 29 else 28)
  else if mo = 4 ∨ mo = 6 ∨ mo = 9 ∨ mo = 11 then 30
  else 31

def dval (c : Char) : Nat := c.toNat - 48

/-- datetime.strptime(ts, "%Y%m%d.%H%M%S"): for a 15-character candidate the
CPython pattern forces 4-2-2 digits, a literal dot, then 2-2-2 digits, and the
datetime constructor validates the calendar ranges. -/
def strptimeTS : Str → Option DT
  | [y1, y2, y3, y4, a1, a2, b1, b2, dot, h1, h2, m1, m2, s1, s2] =>
    if dot = '.' ∧
        ([y1, y2, y3, y4, a1, a2, b1, b2, h1, h2, m1, m2, s1, s2].all isDigitChar) then
      let y := ((dval y1 * 10 + dval y2) * 10 + dval y3) * 10 + dval y4
      let mo := dval a1 * 10 + dval a2
      let d := dval b1 * 10 + dval b2
      let h := dval h1 * 10 + dval h2
      let mi := dval m1 * 10 + dval m2
      let s := dval s1 * 10 + dval s2
      if 1 ≤ y ∧ 1 ≤ mo ∧ mo ≤ 12 ∧ 1 ≤ d ∧ d ≤ daysInMonth y mo ∧
          h ≤ 23 ∧ mi ≤ 59 ∧ s ≤ 59 then
        some ⟨y, mo, d, h, mi, s⟩
      else Option.none
    else Option.none
  | _ => Option.none

/-- The explicit timestamp checks in _VersionInfo._parse_filename:
len == 15, "." in it, and all characters digits once dots are removed
(Python isdigit is false on the empty string). -/
def precheckTS (ts : Str) : Bool :=
  ts.length == 15 && ts.contains '.' &&
    (let ds := ts.filter (fun c => !(c == '.'))
     !(ds == []) && ds.all isDigitChar)

/-- _VersionInfo._parse_filename: split on the delimiter into exactly 3 parts,
check segment 2 (length ≥ 19, 15-char timestamp precheck, digits at [16:19])
and return (base, timestamp string, sequence, spec string).  The character at
index 15 of segment 2 is never examined.  The spec string is segment 3
truncated at its first dot. -/
def parseFilenameM (delim : Str) (name : Str) : Except PyErr (Str × Str × Nat × Str) :=
  match pySplit delim name with
  | [base, vinfo, rest] =>
    let specStr := rest.takeWhile (fun c => !(c == '.'))
    if vinfo.length < 19 then
      Except.error (PyErr.vError "Invalid version info length".toList)
    else
      let tstamp := vinfo.take 15
      if !(precheckTS tstamp) then
        Except.error (PyErr.vError "Invalid timestamp format".toList)
      else
        let seqStr := (vinfo.drop 16).take 3
        if !(!(seqStr == []) && seqStr.all isDigitChar) then
          Except.error (PyErr.vError "Invalid sequence number".toList)
        else
          Except.ok (base, tstamp, strToNat seqStr, specStr)
  | _ => Except.error (PyErr.vError "Invalid version filename format: wrong number of parts".toList)

/-- _VersionSpec. -/
structure VSpec where
  tz : Tz
  src : Src
deriving DecidableEq, Repr

/-- _VersionSpec.from_string: requires an underscore, a split into exactly two
non-empty pieces, and exact membership in the closed token sets. -/
def fromStringM (s : Str) : Except PyErr VSpec :=
  if s = [] ∨ !(s.contains '_') then
    Except.error (PyErr.vError "Invalid version specification format".toList)
  else
    match pySplit ['_'] s with
    | [tzS, srcS] =>
      if tzS = [] ∨ srcS = [] then
        Except.error (PyErr.vError "Invalid version specification format".toList)
      else if tzS = "utc".toList ∨ tzS = "loc".toList then
        if srcS = "mod".toList ∨ srcS = "sto".toList then
          Except.ok ⟨if tzS = "utc".toList then Tz.utc else Tz.loc,
                     if srcS = "mod".toList then Src.mod else Src.sto⟩
        else Except.error (PyErr.vError "Invalid timestamp source".toList)
      else Except.error (PyErr.vError "Invalid timezone format".toList)
    | _ => Except.error (PyErr.vError "Invalid version specification format".toList)

/-- The name-level fields of _VersionInfo (size is looked up separately). -/
structure VRec where
  base : Str
  dt : DT
  seq : Nat
  spec : VSpec
deriving DecidableEq, Repr

/-- _VersionInfo.__post_init__ restricted to the filename: _parse_filename,
then datetime.strptime (a failure there is a ValueError, not a _VersionError),
then _VersionSpec.from_string. -/
def decodeName (delim : Str) (name : Str) : Except PyErr VRec :=
  match parseFilenameM delim name with
  | Except.error e => Except.error e
  | Except.ok (base, tsStr, seq, specStr) =>
    match strptimeTS tsStr with
    | Option.none => Except.error (PyErr.valueError "time data does not match format".toList)
    | some dt =>
      match fromStringM specStr with
      | Except.error e => Except.error e
      | Except.ok sp => Except.ok ⟨base, dt, seq, sp⟩

/-- On-disk data of one file: bytes plus the metadata that
os.utime / os.chmod manipulate. -/
structure FileData where
  content : List Nat
  mtime : Nat
  atime : Nat
  mode : Nat
deriving DecidableEq, Repr

/-- One entry of the flat versions directory. -/
abbrev Entry := Str × FileData

/-- The versions directory: filenames (relative to it) with their data. -/
abbrev FS := List Entry

/-- Path.glob with pattern PREFIX ++ "*": the files whose name starts with
the prefix (fnmatch metacharacters inside names are not modelled). -/
def glob (dir : FS) (pre : Str) : List Entry :=
  dir.filter (fun e => pre.isPrefixOf e.1)

/-- Writing a file: creates it or truncates an existing one of that name. -/
def writeFile (dir : FS) (name : Str) (data : FileData) : FS :=
  dir.filter (fun e => !(e.1 == name)) ++ [(name, data)]

/-- Unlinking a batch of files by name. -/
def removeFiles (dir : FS) (names : List Str) : FS :=
  dir.filter (fun e => !(names.contains e.1))

/-- The sort key _get_versions uses, flattened: the six datetime fields then
the sequence number, compared lexicographically (Python tuple order on
(datetime, int)). -/
def dtKey (dt : DT) : List Nat :=
  [dt.y, dt.mo, dt.d, dt.h, dt.mi, dt.s]

/-- Sort key of a version filename; junk (never used) when it fails to decode. -/
def nameKey (delim : Str) (name : Str) : List Nat :=
  match decodeName delim name with
  | Except.ok r => dtKey r.dt ++ [r.seq]
  | Except.error _ => []

/-- The decoded record of a filename, with a junk default on failure. -/
def recD (delim : Str) (name : Str) : VRec :=
  match decodeName delim name with
  | Except.ok r => r
  | Except.error _ => ⟨[], ⟨0, 0, 0, 0, 0, 0⟩, 0, ⟨Tz.utc, Src.mod⟩⟩

/-- Strict lexicographic order on Nat lists (Python tuple <). -/
def lexLt : List Nat → List Nat → Bool
  | [], [] => false
  | [], _ :: _ => true
  | _ :: _, [] => false
  | a :: as, b :: bs => a < b || (a == b && lexLt as bs)

/-- The descending, stability-preserving relation used to model
sorted(key=..., reverse=True): a comes before b when its key is not
strictly smaller. -/
def keyGe (a b : Entry × List Nat) : Prop :=
  lexLt a.2 b.2 = false

instance : DecidableRel keyGe := fun a b =>
  inferInstanceAs (Decidable (lexLt a.2 b.2 = false))

/-- Python-style for-loop over Except-raising bodies: stops at the first
raised exception. -/
def exMapM {α β : Type} (f : α → Except PyErr β) : List α → Except PyErr (List β)
  | [] => Except.ok []
  | a :: as =>
    match f a with
    | Except.error e => Except.error e
    | Except.ok b =>
      match exMapM f as with
      | Except.error e => Except.error e
      | Except.ok bs => Except.ok (b :: bs)

/-- Last path component, pathlib-style (empty segments dropped). -/
def pyName (p : Str) : Str :=
  (((pySplit ['/'] p).filter (fun s => !(s == []))).getLastD [])

/-- pathlib suffix of a bare filename: from the last dot, provided that dot is
neither the first nor the last character. -/
def pySuffix (n : Str) : Str :=
  match n.reverse.findIdx? (fun c => c == '.') with
  | Option.none => []
  | some ir =>
    let i := n.length - 1 - ir
    if 0 < i ∧ i < n.length - 1 then n.drop i else []

/-- pathlib stem of a bare filename. -/
def pyStemName (n : Str) : Str :=
  n.take (n.length - (pySuffix n).length)

/-- Path(p).stem. -/
def pathStem (p : Str) : Str := pyStemName (pyName p)

/-- Path(p).suffix. -/
def pathSuffix (p : Str) : Str := pySuffix (pyName p)

/-- Helper for dedupFirst, carrying the values already seen. -/
def dedupFirstAux (seen : List Str) : List Str → List Str
  | [] => []
  | a :: as =>
    if seen.contains a then dedupFirstAux seen as
    else a :: dedupFirstAux (a :: seen) as

/-- First-occurrence-order distinct values (dict key order in Python). -/
def dedupFirst (l : List Str) : List Str := dedupFirstAux [] l

/-- FileVersioning._get_versions: glob stem ++ delimiter ++ "*", then sort by
(timestamp, sequence) descending.  The sort key constructs _VersionInfo with
no exception handler, so one undecodable match makes the whole call raise. -/
def getVersions (cfg : Config) (dir : FS) (filePath : Str) : Except PyErr (List Entry) :=
  let pre := pathStem filePath ++ cfg.delimiter
  let ms := glob dir pre
  match exMapM (fun e =>
      match decodeName cfg.delimiter e.1 with
      | Except.error er => Except.error er
      | Except.ok r => Except.ok (e, dtKey r.dt ++ [r.seq])) ms with
  | Except.error e => Except.error e
  | Except.ok keyed => Except.ok ((List.insertionSort keyGe keyed).map (fun p => p.1))

/-- FileVersioning._get_next_sequence: glob base ++ delim ++ ts ++ "_*";
1 when nothing matches, otherwise decode every match (an undecodable one
raises), keep the positive sequence numbers and return their max plus 1. -/
def getNextSequence (cfg : Config) (dir : FS) (ts base : Str) : Except PyErr Nat :=
  let pre := base ++ cfg.delimiter ++ ts ++ ['_']
  let existing := glob dir pre
  if existing.isEmpty then Except.ok 1
  else
    match exMapM (fun e => decodeName cfg.delimiter e.1) existing with
    | Except.error e => Except.error e
    | Except.ok infos =>
      let seqs := (infos.map (fun r => r.seq)).filter (fun s => 0 < s)
      Except.ok (seqs.foldl Nat.max 0 + 1)

/-- The TZ_SRC spec component the configuration will stamp on new versions. -/
def specOf (cfg : Config) : Str :=
  cfg.timezone_format.val ++ ['_'] ++ cfg.timestamp_format.val

/-- FileVersioning._get_version_name. -/
def getVersionName (cfg : Config) (dir : FS) (filePath ts : Str) : Except PyErr Str :=
  let base := pathStem filePath
  let ext := pathSuffix filePath
  match getNextSequence cfg dir ts base with
  | Except.error e => Except.error e
  | Except.ok seq =>
    if 999 < seq then
      Except.error (PyErr.runtimeError "Maximum sequence number (999) exceeded".toList)
    else
      Except.ok (base ++ cfg.delimiter ++ ts ++ ['_'] ++ pad3 seq ++ cfg.delimiter ++
        specOf cfg ++ ext)

/-- Extra extension appended for a compressed version. -/
def compExtSuffix : Comp → Str
  | Comp.NONE => []
  | c => '.' :: c.val

/-- FileVersioning._get_version_path (as a filename inside the directory). -/
def getVersionPath (cfg : Config) (dir : FS) (filePath ts : Str) : Except PyErr Str :=
  match getVersionName cfg dir filePath ts with
  | Except.error e => Except.error e
  | Except.ok n => Except.ok (n ++ compExtSuffix cfg.compression)

/-- The stream compressors/decompressors the Python stdlib provides
(gzip, bz2, lzma); they are external to the repository and enter the
model as parameters. -/
structure Codec where
  gzC : List Nat → List Nat
  gzD : List Nat → List Nat
  bzC : List Nat → List Nat
  bzD : List Nat → List Nat
  xzC : List Nat → List Nat
  xzD : List Nat → List Nat

def compressData (k : Codec) : Comp → List Nat → List Nat
  | Comp.NONE, x => x
  | Comp.GZIP, x => k.gzC x
  | Comp.BZ2, x => k.bzC x
  | Comp.XZ, x => k.xzC x

def decompressData (k : Codec) : Comp → List Nat → List Nat
  | Comp.NONE, x => x
  | Comp.GZIP, x => k.gzD x
  | Comp.BZ2, x => k.bzD x
  | Comp.XZ, x => k.xzD x

/-- _FileMetadata.preserve_metadata: os.utime + os.chmod from source onto dest. -/
def preserveMetadata (srcF dst : FileData) : FileData :=
  { dst with atime := srcF.atime, mtime := srcF.mtime, mode := srcF.mode }

/-- _FileOperations.compress_file: stream through the handler (or shutil.copy2
for NONE, which already copies metadata), then preserve_metadata
unconditionally.  The 0 fields stand for whatever the OS put on the freshly
written file before preserve_metadata runs. -/
def compressFile (k : Codec) (c : Comp) (srcF : FileData) : FileData :=
  let written :=
    match c with
    | Comp.NONE => srcF
    | _ => { content := compressData k c srcF.content, mtime := 0, atime := 0, mode := 0 }
  preserveMetadata srcF written

/-- _FileOperations.decompress_file. -/
def decompressFile (k : Codec) (c : Comp) (srcF : FileData) : FileData :=
  let written :=
    match c with
    | Comp.NONE => srcF
    | _ => { content := decompressData k c srcF.content, mtime := 0, atime := 0, mode := 0 }
  preserveMetadata srcF written

/-- FileVersioning._cleanup_old_versions.  The _get_versions call sits outside
the try/except, so its decode failures propagate; the except _VersionError
branch around the tally loop is kept faithfully even though the loop re-parses
names _get_versions already parsed. -/
def cleanupOldVersions (cfg : Config) (dir : FS) (filePath : Str) :
    Except PyErr (FS × Int × Str) :=
  match cfg.max_versions with
  | Option.none => Except.ok (dir, -1, [])
  | some maxV =>
    if maxV = 0 then Except.ok (dir, -1, []) else
    match getVersions cfg dir filePath with
    | Except.error e => Except.error e
    | Except.ok sortedVs =>
      match exMapM (fun e => decodeName cfg.delimiter e.1) sortedVs with
      | Except.error (PyErr.vError m) =>
        Except.ok (dir, 0, "Error analyzing versions: ".toList ++ m)
      | Except.error e => Except.error e
      | Except.ok infos =>
        let tzs := dedupFirst (infos.map (fun r => r.spec.tz.val))
        if 1 < tzs.length then
          Except.ok (dir, 0, "Multiple timezone types not allowed: ".toList ++
            joinSep ", ".toList tzs)
        else
          let srcs := dedupFirst (infos.map (fun r => r.spec.src.val))
          if 1 < srcs.length then
            Except.ok (dir, 0, "Multiple source types not allowed: ".toList ++
              joinSep ", ".toList srcs)
          else
            let toRemove := sortedVs.drop maxV
            Except.ok (removeFiles dir (toRemove.map (fun e => e.1)),
              Int.ofNat toRemove.length, [])

/-- Message wrapping done by create_version's except clauses. -/
def wrapCreateErr : PyErr → PyErr
  | PyErr.vError m => PyErr.osError m
  | PyErr.valueError m => PyErr.osError ("Failed to create version: ".toList ++ m)
  | PyErr.runtimeError m => PyErr.osError ("Failed to create version: ".toList ++ m)
  | e => e

/-- FileVersioning.create_version, given the already-computed timestamp string
(get_timestamp reads the wall clock / file mtime, which is external): name the
version, write it (compressed) into the directory, run retention, return
(new directory, created name, removed count clamped at 0, warning). -/
def createVersion (k : Codec) (cfg : Config) (dir : FS) (filePath ts : Str)
    (srcF : FileData) : Except PyErr (FS × Str × Nat × Str) :=
  let body : Except PyErr (FS × Str × Nat × Str) :=
    match getVersionPath cfg dir filePath ts with
    | Except.error e => Except.error e
    | Except.ok fullName =>
      let dir1 := writeFile dir fullName (compressFile k cfg.compression srcF)
      match cleanupOldVersions cfg dir1 filePath with
      | Except.error e => Except.error e
      | Except.ok (dir2, removed, warn) =>
        Except.ok (dir2, fullName, (if removed < 0 then 0 else removed).toNat, warn)
  match body with
  | Except.error e => Except.error (wrapCreateErr e)
  | Except.ok r => Except.ok r

/-- One row of FileVersioning.list_versions' output. -/
structure OutRec where
  path : Str
  dt : DT
  size : Nat
  seq : Nat
  tzS : Str
  srcS : Str
deriving DecidableEq, Repr

/-- FileVersioning.list_versions: _get_versions, then one _VersionInfo per
entry (again with no exception handler). -/
def listVersions (cfg : Config) (dir : FS) (filePath : Str) : Except PyErr (List OutRec) :=
  match getVersions cfg dir filePath with
  | Except.error e => Except.error e
  | Except.ok vs =>
    exMapM (fun e =>
      match decodeName cfg.delimiter e.1 with
      | Except.error er => Except.error er
      | Except.ok r =>
        Except.ok ⟨e.1, r.dt, e.2.content.length, r.seq, r.spec.tz.val, r.spec.src.val⟩) vs

/-- Absolute paths for remove_version, as segment lists; resolution collapses
"." and ".." (symlinks are not modelled). -/
def resolveSegs (p : List Str) : List Str :=
  p.foldl (fun acc s =>
    if s = ".".toList then acc
    else if s = "..".toList then acc.dropLast
    else acc ++ [s]) []

/-- A filesystem wider than the versions directory, keyed by resolved
absolute path segments. -/
abbrev GlobalFS := List (List Str × FileData)

/-- FileVersioning.remove_version: existence check, containment check via
Path.relative_to (segment-wise prefix of the resolved path against the
resolved versions directory), then _VersionInfo validation (sequence 0 is
rejected), then unlink.  Any failure leaves the filesystem unchanged. -/
def removeVersionG (cfg : Config) (versionsPath : List Str) (fs : GlobalFS)
    (p : List Str) : GlobalFS × Option PyErr :=
  let rp := resolveSegs p
  match fs.find? (fun e => e.1 == rp) with
  | Option.none => (fs, some (PyErr.notFound "Version file does not exist".toList))
  | some _ =>
    if versionsPath.isPrefixOf rp then
      match decodeName cfg.delimiter (rp.getLastD []) with
      | Except.error _ =>
        (fs, some (PyErr.osError "Failed to remove version".toList))
      | Except.ok r =>
        if r.seq = 0 then
          (fs, some (PyErr.osError "Invalid version file".toList))
        else
          (fs.filter (fun e => !(e.1 == rp)), Option.none)
    else
      (fs, some (PyErr.osError "File is not in the versions directory".toList))

/-- The encoder of §4.1 of the spec / _get_version_name's format string:
base ++ delim ++ ts ++ "_" ++ seq:03d ++ delim ++ tz3 ++ "_" ++ src3 ++ ext. -/
def encodeVersionName (delim : Str) (base ts : Str) (seq : Nat) (tz : Tz) (src : Src)
    (ext : Str) : Str :=
  base ++ delim ++ ts ++ ['_'] ++ pad3 seq ++ delim ++ tz.val ++ ['_'] ++ src.val ++ ext

/-- The closed set of valid TZ_SRC spec strings. -/
def specTokens (s : Str) : Bool :=
  s == "utc_mod".toList || s == "utc_sto".toList ||
    s == "loc_mod".toList || s == "loc_sto".toList

/-- Written from the spec's validity invariant (as amended): splitting on the
delimiter yields exactly 3 segments, segment 2 is at least 19 characters whose
first 15 parse as a calendar-valid YYYYMMDD.HHMMSS timestamp and whose
characters 17-19 are digits (the separator character at index 16 is not
examined by the code), and segment 3 truncated at its first dot is one of the
four TZ_SRC tokens. -/
def validVersionFilename (delim name : Str) : Bool :=
  match pySplit delim name with
  | [_, seg2, seg3] =>
    decide (19 ≤ seg2.length) && (strptimeTS (seg2.take 15)).isSome &&
      ((seg2.drop 16).take 3).all isDigitChar &&
      specTokens (seg3.takeWhile (fun c => !(c == '.')))
  | _ => false

/-- s occurs as a contiguous substring of w. -/
def containsSub (s w : Str) : Prop := ∃ l r, w = l ++ s ++ r

/-- A degenerate codec in which every stream transformer is the identity;
used to instantiate codec-parametric theorems at a concrete value. -/
def idCodec : Codec :=
  ⟨fun x => x, fun x => x, fun x => x, fun x => x, fun x => x, fun x => x⟩

/-- A sample file body used by concrete instantiations. -/
def fd0 : FileData := ⟨[10, 20, 30], 111, 222, 420⟩

/-- The default configuration (delimiter "--", local time, no compression,
unlimited versions, modified-time source). -/
def cfgD : Config := ⟨"--".toList, Tz.loc, Comp.NONE, Option.none, Src.mod⟩

/-- Default configuration with max_versions = 1. -/
def cfgM1 : Config := ⟨"--".toList, Tz.loc, Comp.NONE, some 1, Src.mod⟩

/-- LOCAL / modified-time configuration with max_versions = 5 (C4 scenario). -/
def cfgLM5 : Config := ⟨"--".toList, Tz.loc, Comp.NONE, some 5, Src.mod⟩

/-- A directory holding one UTC/modified-time version of stem a. -/
def dirU1 : FS := [("a--20240207.123456_001--utc_mod.txt".toList, fd0)]

/-- A directory holding two decodable local/modified-time versions of stem a. -/
def dirL2 : FS :=
  [("a--20240101.120000_001--loc_mod.txt".toList, fd0),
   ("a--20240102.090000_001--loc_mod.txt".toList, fd0)]

/-- A directory holding one file that matches the stem glob for a but does
not decode as a version. -/
def dirBad : FS := [("a--notaversion.txt".toList, fd0)]

/-- A directory holding one file that matches the per-timestamp sequence glob
for (a, 20240101.120000) but fails to decode (non-digit sequence field). -/
def dirBadSeq : FS := [("a--20240101.120000_bad--loc_mod.txt".toList, fd0)]

/-- Resolved versions-directory path used by concrete instantiations. -/
def vpath0 : List Str := ["home".toList, "versions".toList]

/-- A path outside vpath0 whose string rendering nevertheless starts with the
rendering of vpath0, and whose final component is a validly-named version. -/
def ppath0 : List Str :=
  ["home".toList, "versionsX".toList, "a--20240207.123456_001--loc_mod.txt".toList]

/-- A one-file global filesystem containing ppath0. -/
def gfs0 : GlobalFS := [(ppath0, fd0)]

theorem isPrefixOf_eq_true_iff (l n : List Char) :
    l.isPrefixOf n = true ↔ ∃ t, n = l ++ t := by
  induction l generalizing n with
  | nil => simp [List.isPrefixOf]
  | cons a as ih =>
    cases n with
    | nil => simp [List.isPrefixOf]
    | cons b bs =>
      simp only [List.isPrefixOf, Bool.and_eq_true, beq_iff_eq, ih, List.cons_append,
        List.cons.injEq]
      constructor
      · rintro ⟨rfl, t, rfl⟩; exact ⟨t, rfl, rfl⟩
      · rintro ⟨t, rfl, rfl⟩; exact ⟨rfl, t, rfl⟩

theorem findOccur_some_decomp {delim s : Str} {i : Nat} (h : findOccur delim s = some i) :
    s = s.take i ++ delim ++ s.drop (i + delim.length) := by
  have hpre : delim.isPrefixOf (s.drop i) = true := by
    have := List.find?_some h
    simpa using this
  obtain ⟨t, ht⟩ := (isPrefixOf_eq_true_iff _ _).mp hpre
  have h2 : s.drop (i + delim.length) = t := by
    have h3 : (s.drop i).drop delim.length = t := by rw [ht]; simp
    simpa [List.drop_drop, Nat.add_comm] using h3
  rw [h2]
  conv_lhs => rw [← List.take_append_drop i s]
  rw [ht]
  exact (List.append_assoc _ _ _).symm

theorem joinSep_cons_ne (d x : Str) (l : List Str) (h : l ≠ []) :
    joinSep d (x :: l) = x ++ d ++ joinSep d l := by
  cases l with
  | nil => exact absurd rfl h
  | cons y t => rfl

theorem pySplitAux_ne_nil (delim : Str) :
    ∀ (fuel : Nat) (s : Str), pySplitAux delim fuel s ≠ [] := by
  intro fuel
  induction fuel with
  | zero => intro s; simp [pySplitAux]
  | succ n ih =>
    intro s
    unfold pySplitAux
    split <;> simp

theorem pySplit_ne_nil (delim s : Str) : pySplit delim s ≠ [] := by
  unfold pySplit
  split
  · simp
  · exact pySplitAux_ne_nil _ _ _

theorem pySplitAux_join (delim : Str) (hd : delim ≠ []) :
    ∀ (fuel : Nat) (s : Str), s.length ≤ fuel →
      joinSep delim (pySplitAux delim fuel s) = s := by
  intro fuel
  induction fuel with
  | zero =>
    intro s hl
    have hs : s = [] := List.length_eq_zero.mp (Nat.le_zero.mp hl)
    subst hs
    simp [pySplitAux, joinSep]
  | succ n ih =>
    intro s hl
    unfold pySplitAux
    cases hfo : findOccur delim s with
    | none => simp [joinSep]
    | some i =>
      have hdec := findOccur_some_decomp hfo
      have hdl : 1 ≤ delim.length := by
        cases delim with
        | nil => exact absurd rfl hd
        | cons _ _ => simp
      have hlen : (s.drop (i + delim.length)).length ≤ n := by
        simp only [List.length_drop]
        omega
      rw [joinSep_cons_ne _ _ _ (pySplitAux_ne_nil _ _ _), ih _ hlen]
      exact hdec.symm

theorem pySplit_join (delim : Str) (hd : delim ≠ []) (s : Str) :
    joinSep delim (pySplit delim s) = s := by
  unfold pySplit
  rw [if_neg hd]
  exact pySplitAux_join delim hd s.length s le_rfl

theorem lexLt_irrefl (a : List Nat) : lexLt a a = false := by
  induction a with
  | nil => rfl
  | cons x xs ih => simp [lexLt, ih]

theorem lexLt_asymm : ∀ (a b : List Nat), lexLt a b = true → lexLt b a = false := by
  intro a
  induction a with
  | nil =>
    intro b h
    cases b with
    | nil => simpa [lexLt] using h
    | cons y ys => simp [lexLt]
  | cons x xs ih =>
    intro b h
    cases b with
    | nil => simpa [lexLt] using h
    | cons y ys =>
      simp only [lexLt, Bool.or_eq_true, Bool.and_eq_true, beq_iff_eq,
        decide_eq_true_eq] at h
      simp only [lexLt, Bool.or_eq_false_iff, Bool.and_eq_false_iff,
        decide_eq_false_iff_not, beq_eq_false_iff_ne, ne_eq]
      rcases h with h | ⟨rfl, h⟩
      · exact ⟨by omega, Or.inl (by omega)⟩
      · exact ⟨by omega, Or.inr (ih ys h)⟩

theorem lexLt_connex : ∀ (a b : List Nat), lexLt a b = false → lexLt b a = true ∨ a = b := by
  intro a
  induction a with
  | nil =>
    intro b h
    cases b with
    | nil => right; rfl
    | cons y ys => simp [lexLt] at h
  | cons x xs ih =>
    intro b h
    cases b with
    | nil => left; simp [lexLt]
    | cons y ys =>
      simp only [lexLt, Bool.or_eq_false_iff, Bool.and_eq_false_iff] at h
      obtain ⟨h1, h2⟩ := h
      have hxy : ¬ x < y := by simpa using h1
      rcases h2 with h2 | h2
      · have : x ≠ y := by simpa using h2
        left
        simp only [lexLt, Bool.or_eq_true, Bool.and_eq_true, beq_iff_eq, decide_eq_true_eq]
        left; omega
      · rcases ih ys h2 with h3 | h3
        · by_cases hxe : x = y
          · left
            simp only [lexLt, Bool.or_eq_true, Bool.and_eq_true, beq_iff_eq,
              decide_eq_true_eq]
            right; exact ⟨hxe.symm, h3⟩
          · left
            simp only [lexLt, Bool.or_eq_true, Bool.and_eq_true, beq_iff_eq,
              decide_eq_true_eq]
            left; omega
        · by_cases hxe : x = y
          · right; rw [hxe, h3]
          · left
            simp only [lexLt, Bool.or_eq_true, Bool.and_eq_true, beq_iff_eq,
              decide_eq_true_eq]
            left; omega

theorem lexLt_trans : ∀ (a b c : List Nat),
    lexLt a b = true → lexLt b c = true → lexLt a c = true := by
  intro a
  induction a with
  | nil =>
    intro b c hab hbc
    cases b with
    | nil => simpa [lexLt] using hab
    | cons y ys =>
      cases c with
      | nil => simpa [lexLt] using hbc
      | cons z zs => simp [lexLt]
  | cons x xs ih =>
    intro b c hab hbc
    cases b with
    | nil => simpa [lexLt] using hab
    | cons y ys =>
      cases c with
      | nil => simpa [lexLt] using hbc
      | cons z zs =>
        simp only [lexLt, Bool.or_eq_true, Bool.and_eq_true, beq_iff_eq,
          decide_eq_true_eq] at hab hbc ⊢
        rcases hab with hab | ⟨rfl, hab⟩
        · rcases hbc with hbc | ⟨rfl, hbc⟩
          · left; omega
          · left; exact hab
        · rcases hbc with hbc | ⟨rfl, hbc⟩
          · left; exact hbc
          · right; exact ⟨rfl, ih _ _ hab hbc⟩

theorem keyGe_total : IsTotal (Entry × List Nat) keyGe := by
  constructor
  intro a b
  by_cases h : lexLt a.2 b.2 = false
  · left; exact h
  · right
    have ht : lexLt a.2 b.2 = true := by
      cases hv : lexLt a.2 b.2 with
      | false => exact absurd hv h
      | true => rfl
    exact lexLt_asymm _ _ ht

theorem keyGe_trans : IsTrans (Entry × List Nat) keyGe := by
  constructor
  intro a b c hab hbc
  unfold keyGe at hab hbc ⊢
  cases hac : lexLt a.2 c.2 with
  | false => rfl
  | true =>
    exfalso
    rcases lexLt_connex _ _ hab with h1 | h1
    · rcases lexLt_connex _ _ hbc with h2 | h2
      · have := lexLt_trans _ _ _ (lexLt_trans _ _ _ h2 h1) hac
        simp [lexLt_irrefl] at this
      · rw [← h2] at hac
        rw [hab] at hac
        exact Bool.false_ne_true hac
    · rw [h1] at hac
      rw [hbc] at hac
      exact Bool.false_ne_true hac

theorem exMapM_congr_ok {α β : Type} (f : α → Except PyErr β) (g : α → β) :
    ∀ (l : List α), (∀ a ∈ l, f a = Except.ok (g a)) →
      exMapM f l = Except.ok (l.map g) := by
  intro l
  induction l with
  | nil => intro _; rfl
  | cons a as ih =>
    intro h
    have ha : f a = Except.ok (g a) := h a (List.mem_cons_self _ _)
    have has : exMapM f as = Except.ok (as.map g) :=
      ih (fun x hx => h x (List.mem_cons_of_mem _ hx))
    simp [exMapM, ha, has]

theorem exMapM_error_of_mem {α β : Type} (f : α → Except PyErr β) :
    ∀ (l : List α) (x : α), x ∈ l → (∀ b, f x ≠ Except.ok b) →
      ∃ err, exMapM f l = Except.error err := by
  intro l
  induction l with
  | nil => intro x hx; exact absurd hx (List.not_mem_nil x)
  | cons a as ih =>
    intro x hx hfail
    cases hfa : f a with
    | error e => exact ⟨e, by simp [exMapM, hfa]⟩
    | ok b =>
      rcases List.mem_cons.mp hx with rfl | hx'
      · exact absurd hfa (hfail b)
      · obtain ⟨err, herr⟩ := ih x hx' hfail
        exact ⟨err, by simp [exMapM, hfa, herr]⟩

theorem dedupFirstAux_const (c : Str) :
    ∀ (l : List Str), (∀ x ∈ l, x = c) → ∀ (seen : List Str),
      (seen.contains c = true → dedupFirstAux seen l = []) ∧
      (seen.contains c = false →
        (dedupFirstAux seen l = [] ∨ dedupFirstAux seen l = [c])) := by
  intro l
  induction l with
  | nil => intro _ seen; exact ⟨fun _ => rfl, fun _ => Or.inl rfl⟩
  | cons a as ih =>
    intro h seen
    have hac : a = c := h a (List.mem_cons_self _ _)
    subst hac
    have has : ∀ x ∈ as, x = a := fun x hx => h x (List.mem_cons_of_mem _ hx)
    constructor
    · intro hseen
      simp only [dedupFirstAux, hseen, if_true]
      exact (ih has seen).1 hseen
    · intro hseen
      simp only [dedupFirstAux, hseen, Bool.false_eq_true, if_false]
      right
      have : (a :: seen).contains a = true := by simp
      rw [(ih has (a :: seen)).1 this]

theorem dedupFirst_const_length (l : List Str) (c : Str) (h : ∀ x ∈ l, x = c) :
    (dedupFirst l).length ≤ 1 := by
  unfold dedupFirst
  have hc : ([] : List Str).contains c = false := rfl
  rcases (dedupFirstAux_const c l h []).2 hc with h1 | h1 <;> simp [h1]

theorem isDigitChar_digit (d : Nat) (h : d < 10) :
    isDigitChar (Char.ofNat (48 + d)) = true := by
  interval_cases d <;> decide

theorem toNat_digit (d : Nat) (h : d < 10) : (Char.ofNat (48 + d)).toNat = 48 + d := by
  interval_cases d <;> decide

theorem pad3_all_digits (n : Nat) : (pad3 n).all isDigitChar = true := by
  simp only [pad3, List.all_cons, List.all_nil, Bool.and_true, Bool.and_eq_true]
  exact ⟨isDigitChar_digit _ (Nat.mod_lt _ (by omega)),
    isDigitChar_digit _ (Nat.mod_lt _ (by omega)),
    isDigitChar_digit _ (Nat.mod_lt _ (by omega))⟩

theorem strToNat_pad3 (n : Nat) (h : n ≤ 999) : strToNat (pad3 n) = n := by
  simp only [pad3, strToNat, List.foldl]
  rw [toNat_digit _ (Nat.mod_lt _ (by omega)),
    toNat_digit _ (Nat.mod_lt _ (by omega)),
    toNat_digit _ (Nat.mod_lt _ (by omega))]
  omega

theorem pad3_length (n : Nat) : (pad3 n).length = 3 := rfl

theorem containsSub_joinSep (d : Str) :
    ∀ (l : List Str) (v : Str), v ∈ l → containsSub v (joinSep d l) := by
  intro l
  induction l with
  | nil => intro v hv; exact absurd hv (List.not_mem_nil v)
  | cons x t ih =>
    intro v hv
    cases t with
    | nil =>
      have : v = x := by simpa using hv
      subst this
      exact ⟨[], [], by simp [joinSep]⟩
    | cons y t2 =>
      rw [joinSep_cons_ne _ _ _ (by simp)]
      rcases List.mem_cons.mp hv with rfl | hv'
      · exact ⟨[], d ++ joinSep d (y :: t2), by simp⟩
      · obtain ⟨lw, rw2, hw⟩ := ih v hv'
        exact ⟨x ++ d ++ lw, rw2, by simp [hw, List.append_assoc]⟩

/-- C10: version lookup is keyed by the original file's stem alone, so two
original paths with equal stem but different extensions (for example a.txt and
a.md) get the identical sequence of version records from list, and versions of
distinct originals sharing a stem are commingled in one version set. -/
theorem c10_list_commingled_by_stem (cfg : Config) (dir : FS) (p1 p2 : Str)
    (h : pathStem p1 = pathStem p2) :
    listVersions cfg dir p1 = listVersions cfg dir p2 := by
  unfold listVersions getVersions
  rw [h]

theorem c10_witness :
    pathStem "a.txt".toList = pathStem "a.md".toList ∧
    listVersions cfgD dirL2 "a.txt".toList = listVersions cfgD dirL2 "a.md".toList :=
  ⟨by decide, c10_list_commingled_by_stem cfgD dirL2 _ _ (by decide)⟩

/-- C9: for every supported compression algorithm (NONE, GZIP, BZ2, XZ) and
every source file, decompress after compress restores the bytes exactly, and
the compression artifact carries the source's modification time, access time
and permission bits (including on the no-compression path).  The stream
codecs themselves are Python stdlib externals, taken as parameters assumed to
be mutually inverse. -/
theorem c9_compress_roundtrip_metadata (k : Codec)
    (hgz : ∀ x, k.gzD (k.gzC x) = x) (hbz : ∀ x, k.bzD (k.bzC x) = x)
    (hxz : ∀ x, k.xzD (k.xzC x) = x) (c : Comp) (srcF : FileData) :
    (decompressFile k c (compressFile k c srcF)).content = srcF.content ∧
    (compressFile k c srcF).mtime = srcF.mtime ∧
    (compressFile k c srcF).atime = srcF.atime ∧
    (compressFile k c srcF).mode = srcF.mode := by
  cases c <;>
    simp [compressFile, decompressFile, preserveMetadata, compressData,
      decompressData, hgz, hbz, hxz]

theorem c9_witness :
    (decompressFile idCodec Comp.GZIP (compressFile idCodec Comp.GZIP fd0)).content =
      fd0.content ∧
    (compressFile idCodec Comp.GZIP fd0).mtime = fd0.mtime ∧
    (compressFile idCodec Comp.GZIP fd0).atime = fd0.atime ∧
    (compressFile idCodec Comp.GZIP fd0).mode = fd0.mode :=
  c9_compress_roundtrip_metadata idCodec (fun _ => rfl) (fun _ => rfl) (fun _ => rfl)
    Comp.GZIP fd0

/-- C8: remove on any path whose resolved location is not inside the
configured versions directory fails with an error and deletes nothing, even
when the path names a validly-formatted version file; containment is decided
on resolved path segments (Path.relative_to), not by string prefix. -/
theorem c8_remove_outside_directory (cfg : Config) (versionsPath : List Str)
    (fs : GlobalFS) (p : List Str)
    (h : versionsPath.isPrefixOf (resolveSegs p) = false) :
    (removeVersionG cfg versionsPath fs p).1 = fs ∧
    ∃ e, (removeVersionG cfg versionsPath fs p).2 = some e := by
  unfold removeVersionG
  cases hf : fs.find? (fun e => e.1 == resolveSegs p) with
  | none => simp [hf]
  | some v => simp [hf, h]

theorem c8_witness :
    (removeVersionG cfgD vpath0 gfs0 ppath0).1 = gfs0 ∧
    ∃ e, (removeVersionG cfgD vpath0 gfs0 ppath0).2 = some e :=
  c8_remove_outside_directory cfgD vpath0 gfs0 ppath0 (by decide)

theorem isDigitChar_beq_dot {c : Char} (h : isDigitChar c = true) : (c == '.') = false := by
  cases hb : c == '.' with
  | false => rfl
  | true =>
    have hc : c = '.' := by simpa using hb
    subst hc
    exact absurd h (by decide)

theorem dot_beq_digit {c : Char} (h : isDigitChar c = true) : ('.' == c) = false := by
  cases hb : ('.' == c) with
  | false => rfl
  | true =>
    have hc : '.' = c := by simpa using hb
    subst hc
    exact absurd h (by decide)

theorem strptimeTS_some_facts {ts : Str} {dt : DT} (h : strptimeTS ts = some dt) :
    ts.length = 15 ∧ precheckTS ts = true := by
  unfold strptimeTS at h
  split at h
  · rename_i y1 y2 y3 y4 a1 a2 b1 b2 dot hh1 hh2 m1 m2 s1 s2
    split at h
    · rename_i hcond
      obtain ⟨hdot, hdig⟩ := hcond
      subst hdot
      simp only [List.all_cons, List.all_nil, Bool.and_true, Bool.and_eq_true] at hdig
      obtain ⟨d1, d2, d3, d4, d5, d6, d7, d8, d9, d10, d11, d12, d13, d14⟩ := hdig
      refine ⟨rfl, ?_⟩
      simp [precheckTS, List.filter, List.contains, List.elem,
        isDigitChar_beq_dot, dot_beq_digit, *]
    · exact Option.noConfusion h
  · exact Option.noConfusion h

theorem fromStringM_ok_iff (s : Str) :
    isOkE (fromStringM s) = true ↔ specTokens s = true := by
  constructor
  · intro h
    unfold fromStringM at h
    split at h
    · simp [isOkE] at h
    · split at h
      · rename_i tzS srcS hsp
        split at h
        · simp [isOkE] at h
        · split at h
          · rename_i htz
            split at h
            · rename_i hsrc
              have hjoin := pySplit_join ['_'] (by simp) s
              rw [hsp] at hjoin
              have hs : s = tzS ++ ['_'] ++ srcS := by
                rw [← hjoin]; rfl
              rw [hs]
              rcases htz with h1 | h1 <;> rcases hsrc with h2 | h2 <;>
                rw [h1, h2] <;> decide
            · simp [isOkE] at h
          · simp [isOkE] at h
      · simp [isOkE] at h
  · intro h
    have h4 : s = "utc_mod".toList ∨ s = "utc_sto".toList ∨
        s = "loc_mod".toList ∨ s = "loc_sto".toList := by
      simpa [specTokens, Bool.or_eq_true, beq_iff_eq, or_assoc] using h
    rcases h4 with rfl | rfl | rfl | rfl <;> decide

/-- C6: amended decode-validity invariant.  Decode yields a version record
exactly when: splitting on the delimiter gives 3 segments, segment 2 has at
least 19 characters whose first 15 form a calendar-valid YYYYMMDD.HHMMSS
timestamp and whose characters 17-19 are a 3-digit numeric sequence, and
segment 3 truncated at its first dot is one of the four TZ_SRC tokens over
the closed sets {utc, loc} and {mod, sto}.  Amendment: the original claim
also required the character between timestamp and sequence (index 16 of
segment 2) to be an underscore; the code never examines that character (see
the counterexample).  Any violation yields a decode failure and never a
partial record (the Except value carries either a whole record or an error).
-/
theorem c6_decode_validity_amended (delim name : Str) (hd : delim ≠ []) :
    isOkE (decodeName delim name) = true ↔ validVersionFilename delim name = true := by
  unfold decodeName parseFilenameM validVersionFilename
  cases hsp : pySplit delim name with
  | nil => simp [isOkE]
  | cons b t =>
    cases t with
    | nil => simp [isOkE]
    | cons s2 t2 =>
      cases t2 with
      | nil => simp [isOkE]
      | cons s3 t3 =>
        cases t3 with
        | cons x xs => simp [isOkE]
        | nil =>
          by_cases h19 : s2.length < 19
          · have : ¬ (19 ≤ s2.length) := by omega
            simp [isOkE, h19, this]
          · have h19b : 19 ≤ s2.length := by omega
            simp only [h19, if_false]
            by_cases hpc : precheckTS (s2.take 15) = true
            · have hnempty : (((s2.drop 16).take 3) == ([] : Str)) = false := by
                cases hb : (((s2.drop 16).take 3) == ([] : Str)) with
                | false => rfl
                | true =>
                  have he : ((s2.drop 16).take 3) = [] := by simpa using hb
                  have : ((s2.drop 16).take 3).length = 3 := by
                    simp [List.length_take, List.length_drop]
                    omega
                  rw [he] at this
                  simp at this
              simp only [hpc, Bool.not_true, Bool.false_eq_true, if_false, hnempty,
                Bool.not_false, Bool.true_and]
              by_cases hdg : ((s2.drop 16).take 3).all isDigitChar = true
              · simp only [hdg, Bool.not_true, Bool.false_eq_true, if_false]
                cases hst : strptimeTS (s2.take 15) with
                | none => simp [isOkE, hst]
                | some dt =>
                  cases hfs : fromStringM (s3.takeWhile (fun c => !(c == '.'))) with
                  | error e =>
                    have := (fromStringM_ok_iff (s3.takeWhile (fun c => !(c == '.'))))
                    rw [hfs] at this
                    simp [isOkE] at this
                    simp [isOkE, hst, hfs, this, h19b, hdg]
                  | ok sp =>
                    have := (fromStringM_ok_iff (s3.takeWhile (fun c => !(c == '.'))))
                    rw [hfs] at this
                    simp [isOkE] at this
                    simp [isOkE, hst, hfs, this, h19b, hdg]
              · have hdgf : ((s2.drop 16).take 3).all isDigitChar = false := by
                  cases hv : ((s2.drop 16).take 3).all isDigitChar with
                  | false => rfl
                  | true => exact absurd hv hdg
                simp [isOkE, hdgf]
            · have hpcf : precheckTS (s2.take 15) = false := by
                cases hv : precheckTS (s2.take 15) with
                | false => rfl
                | true => exact absurd hv hpc
              have hstn : strptimeTS (s2.take 15) = Option.none := by
                cases hst : strptimeTS (s2.take 15) with
                | none => rfl
                | some dt =>
                  have := (strptimeTS_some_facts hst).2
                  rw [hpcf] at this
                  exact absurd this (by simp)
              simp [isOkE, hpcf, hstn]

theorem c6_witness :
    isOkE (decodeName "--".toList "a--20240101.120000_001--loc_mod.txt".toList) = true ↔
    validVersionFilename "--".toList "a--20240101.120000_001--loc_mod.txt".toList = true :=
  c6_decode_validity_amended "--".toList "a--20240101.120000_001--loc_mod.txt".toList
    (by decide)

/-- C6 counterexample: a filename whose second segment has the character X
instead of the underscore at index 15 still decodes successfully, so the
claimed "followed by an underscore" validity rule is not enforced by the
code. -/
theorem c6_counterexample_separator_unchecked :
    isOkE (decodeName "--".toList "test--20240207.123456X001--utc_mod.txt".toList) = true ∧
    (pySplit "--".toList "test--20240207.123456X001--utc_mod.txt".toList).get? 1 =
      some "20240207.123456X001".toList ∧
    "20240207.123456X001".toList.get? 15 = some 'X' ∧ 'X' ≠ '_' := by decide

/-- C2 (amended): for every valid tuple, decoding the filename produced by
encode with the same delimiter returns exactly (baseName, timestamp, sequence,
tz, src) - the extension is embedded in segment 3 but is not part of decode's
output (see the counterexample) - provided the extension is empty or begins
with a dot and splitting the encoded name on the delimiter yields exactly the
three intended segments (true in particular for the default delimiter "--"
when neither baseName, extension, nor timestamp contains it). -/
theorem c2_roundtrip_amended (delim base ts ext : Str) (seq : Nat) (tz : Tz) (src : Src)
    (dt0 : DT) (hts : strptimeTS ts = some dt0) (hseq1 : 1 ≤ seq) (hseq : seq ≤ 999)
    (hext : ext = [] ∨ ∃ e1, ext = '.' :: e1)
    (hsplit : pySplit delim (encodeVersionName delim base ts seq tz src ext) =
      [base, ts ++ '_' :: pad3 seq, tz.val ++ '_' :: src.val ++ ext]) :
    decodeName delim (encodeVersionName delim base ts seq tz src ext) =
      Except.ok ⟨base, dt0, seq, ⟨tz, src⟩⟩ := by
  obtain ⟨hlen15, hpre⟩ := strptimeTS_some_facts hts
  have hseg2 : (ts ++ '_' :: pad3 seq).length = 19 := by
    simp [List.length_append, hlen15, pad3]
  have htake : (ts ++ '_' :: pad3 seq).take 15 = ts := List.take_left' hlen15
  have hdrop : (ts ++ '_' :: pad3 seq).drop 16 = pad3 seq := by
    have h2 : (ts ++ '_' :: pad3 seq).drop 16 = ((ts ++ '_' :: pad3 seq).drop 15).drop 1 := by
      simp [List.drop_drop]
    rw [h2, List.drop_left' hlen15]
    rfl
  have hspec : (tz.val ++ '_' :: src.val ++ ext).takeWhile (fun c => !(c == '.')) =
      tz.val ++ '_' :: src.val := by
    rcases hext with rfl | ⟨e1, rfl⟩ <;> cases tz <;> cases src <;>
      simp [Tz.val, Src.val, List.takeWhile]
  have hfs : fromStringM (tz.val ++ '_' :: src.val) = Except.ok ⟨tz, src⟩ := by
    cases tz <;> cases src <;> decide
  unfold decodeName parseFilenameM
  rw [hsplit]
  have htk3 : (pad3 seq).take 3 = pad3 seq := by simp [pad3]
  have hpe : ((pad3 seq) == ([] : Str)) = false := rfl
  simp only [hseg2, htake, hdrop, hspec, hts, hfs, hpre]
  simp [htk3, hpe, pad3_all_digits, strToNat_pad3 _ hseq, hts, hfs]

theorem c2_witness :
    decodeName "--".toList
        (encodeVersionName "--".toList "report".toList "20240207.123456".toList 1
          Tz.utc Src.mod ".txt".toList) =
      Except.ok ⟨"report".toList, ⟨2024, 2, 7, 12, 34, 56⟩, 1, ⟨Tz.utc, Src.mod⟩⟩ :=
  c2_roundtrip_amended "--".toList "report".toList "20240207.123456".toList ".txt".toList 1
    Tz.utc Src.mod ⟨2024, 2, 7, 12, 34, 56⟩ (by decide) (by decide) (by decide)
    (Or.inr ⟨"txt".toList, by decide⟩) (by decide)

/-- C2 counterexample: two valid tuples that differ only in the extension
encode to different filenames yet decode to the same result, so decode cannot
return the original tuple's extension component. -/
theorem c2_counterexample_ext_not_recovered :
    decodeName "--".toList
        (encodeVersionName "--".toList "report".toList "20240207.123456".toList 1
          Tz.utc Src.mod ".txt".toList) =
      decodeName "--".toList
        (encodeVersionName "--".toList "report".toList "20240207.123456".toList 1
          Tz.utc Src.mod ".md".toList) ∧
    ".txt".toList ≠ ".md".toList := by decide

/-- C5 (amended): nextSequence returns 1 when no file matches
base ++ delim ++ ts ++ "_*"; when every match decodes, it collects the decoded
sequence numbers with non-zero value and returns their maximum plus 1.
Amendment: a match that fails to decode is NOT skipped - the decode failure
propagates and the whole operation fails with an error (the _VersionInfo
construction in the loop has no exception handler). -/
theorem c5_next_sequence_amended (cfg : Config) (dir : FS) (ts base : Str) :
    (glob dir (base ++ cfg.delimiter ++ ts ++ ['_']) = [] →
      getNextSequence cfg dir ts base = Except.ok 1) ∧
    ((∀ e ∈ glob dir (base ++ cfg.delimiter ++ ts ++ ['_']),
        isOkE (decodeName cfg.delimiter e.1) = true) →
      getNextSequence cfg dir ts base = Except.ok
        ((((glob dir (base ++ cfg.delimiter ++ ts ++ ['_'])).map
            (fun e => (recD cfg.delimiter e.1).seq)).filter (fun s => 0 < s)).foldl
          Nat.max 0 + 1)) ∧
    ((∃ e ∈ glob dir (base ++ cfg.delimiter ++ ts ++ ['_']),
        isOkE (decodeName cfg.delimiter e.1) = false) →
      ∃ err, getNextSequence cfg dir ts base = Except.error err) := by
  refine ⟨?_, ?_, ?_⟩
  · intro h
    simp only [getNextSequence]
    rw [h]
    rfl
  · intro h
    simp only [getNextSequence]
    cases hg : glob dir (base ++ cfg.delimiter ++ ts ++ ['_']) with
    | nil => rfl
    | cons e0 es =>
      rw [hg] at h
      have hfk : ∀ e ∈ e0 :: es,
          decodeName cfg.delimiter e.1 = Except.ok (recD cfg.delimiter e.1) := by
        intro e he
        have := h e he
        cases hd : decodeName cfg.delimiter e.1 with
        | error er => rw [hd] at this; simp [isOkE] at this
        | ok r => simp [recD, hd]
      rw [exMapM_congr_ok _ (fun e => recD cfg.delimiter e.1) _ hfk]
      simp only [List.map_map]
      rfl
  · rintro ⟨x, hx, hxf⟩
    have hfail : ∀ b, decodeName cfg.delimiter x.1 ≠ Except.ok b := by
      intro b hb
      rw [hb] at hxf
      simp [isOkE] at hxf
    simp only [getNextSequence]
    cases hg : glob dir (base ++ cfg.delimiter ++ ts ++ ['_']) with
    | nil => rw [hg] at hx; exact absurd hx (List.not_mem_nil x)
    | cons e0 es =>
      rw [hg] at hx
      obtain ⟨err, herr⟩ :=
        exMapM_error_of_mem (fun e => decodeName cfg.delimiter e.1) (e0 :: es) x hx hfail
      refine ⟨err, ?_⟩
      rw [herr]
      rfl

theorem c5_witness :
    getNextSequence cfgD ([] : FS) "20240101.120000".toList "a".toList = Except.ok 1 ∧
    getNextSequence cfgD dirL2 "20240101.120000".toList "a".toList = Except.ok 2 ∧
    (∃ err, getNextSequence cfgD dirBadSeq "20240101.120000".toList "a".toList =
      Except.error err) := by
  refine ⟨(c5_next_sequence_amended cfgD [] _ _).1 (by decide), ?_,
    (c5_next_sequence_amended cfgD dirBadSeq _ _).2.2 (by decide)⟩
  have h := (c5_next_sequence_amended cfgD dirL2 "20240101.120000".toList "a".toList).2.1
    (by decide)
  rw [h]
  decide

/-- C5 counterexample: with a single matching file whose sequence field is not
numeric, _get_next_sequence raises (_VersionError) instead of skipping the
file as the claim states. -/
theorem c5_counterexample_decode_failure_raises :
    getNextSequence cfgD dirBadSeq "20240101.120000".toList "a".toList =
      Except.error (PyErr.vError "Invalid sequence number".toList) := by decide

theorem getVersions_ok (cfg : Config) (dir : FS) (p : Str)
    (h : ∀ e ∈ glob dir (pathStem p ++ cfg.delimiter),
      isOkE (decodeName cfg.delimiter e.1) = true) :
    getVersions cfg dir p = Except.ok
      ((List.insertionSort keyGe ((glob dir (pathStem p ++ cfg.delimiter)).map
        (fun e => (e, nameKey cfg.delimiter e.1)))).map (fun q => q.1)) := by
  simp only [getVersions]
  have hfk : ∀ e ∈ glob dir (pathStem p ++ cfg.delimiter),
      (match decodeName cfg.delimiter e.1 with
       | Except.error er => Except.error er
       | Except.ok r => Except.ok (e, dtKey r.dt ++ [r.seq])) =
      Except.ok (e, nameKey cfg.delimiter e.1) := by
    intro e he
    have := h e he
    cases hd : decodeName cfg.delimiter e.1 with
    | error er => rw [hd] at this; simp [isOkE] at this
    | ok r => simp [hd, nameKey]
  rw [exMapM_congr_ok _ (fun e => (e, nameKey cfg.delimiter e.1)) _ hfk]

theorem getVersions_spec (cfg : Config) (dir : FS) (p : Str)
    (h : ∀ e ∈ glob dir (pathStem p ++ cfg.delimiter),
      isOkE (decodeName cfg.delimiter e.1) = true) :
    ∃ vs, getVersions cfg dir p = Except.ok vs ∧
      List.Perm vs (glob dir (pathStem p ++ cfg.delimiter)) ∧
      vs.Pairwise (fun a b =>
        lexLt (nameKey cfg.delimiter a.1) (nameKey cfg.delimiter b.1) = false) := by
  refine ⟨_, getVersions_ok cfg dir p h, ?_, ?_⟩
  · have hp := List.perm_insertionSort keyGe
      ((glob dir (pathStem p ++ cfg.delimiter)).map (fun e => (e, nameKey cfg.delimiter e.1)))
    have hm := hp.map (fun q : Entry × List Nat => q.1)
    rw [List.map_map] at hm
    rw [show ((fun q : Entry × List Nat => q.1) ∘ fun e : Entry =>
      (e, nameKey cfg.delimiter e.1)) = id from rfl, List.map_id] at hm
    exact hm
  · haveI := keyGe_total
    haveI := keyGe_trans
    have hs := List.sorted_insertionSort keyGe
      ((glob dir (pathStem p ++ cfg.delimiter)).map (fun e => (e, nameKey cfg.delimiter e.1)))
    rw [List.pairwise_map]
    refine List.Pairwise.imp_of_mem ?_ hs
    intro q1 q2 hq1 hq2 hr
    have hp := List.perm_insertionSort keyGe
      ((glob dir (pathStem p ++ cfg.delimiter)).map (fun e => (e, nameKey cfg.delimiter e.1)))
    have hm1 := hp.mem_iff.mp hq1
    have hm2 := hp.mem_iff.mp hq2
    obtain ⟨e1, he1, hq1e⟩ := List.mem_map.mp hm1
    obtain ⟨e2, he2, hq2e⟩ := List.mem_map.mp hm2
    have k1 : q1.2 = nameKey cfg.delimiter q1.1.1 := by rw [← hq1e]
    have k2 : q2.2 = nameKey cfg.delimiter q2.1.1 := by rw [← hq2e]
    unfold keyGe at hr
    rw [k1, k2] at hr
    exact hr

/-- C3 (amended): list over the stem glob.  When every matching file decodes,
list returns normally with one record per match, sorted by
(timestamp, sequence) descending.  Amendment: a matching file that fails to
decode is NOT silently dropped - the decode failure raised while computing the
sort key propagates out of list_versions (there is no exception handler). -/
theorem c3_list_amended (cfg : Config) (dir : FS) (p : Str) :
    ((∃ e ∈ glob dir (pathStem p ++ cfg.delimiter),
        isOkE (decodeName cfg.delimiter e.1) = false) →
      ∃ err, listVersions cfg dir p = Except.error err) ∧
    ((∀ e ∈ glob dir (pathStem p ++ cfg.delimiter),
        isOkE (decodeName cfg.delimiter e.1) = true) →
      ∃ out, listVersions cfg dir p = Except.ok out ∧
        List.Perm (out.map (fun o => o.path))
          ((glob dir (pathStem p ++ cfg.delimiter)).map (fun e => e.1)) ∧
        out.Pairwise (fun a b =>
          lexLt (dtKey a.dt ++ [a.seq]) (dtKey b.dt ++ [b.seq]) = false)) := by
  constructor
  · rintro ⟨x, hx, hxf⟩
    obtain ⟨m0, hm0⟩ : ∃ m, decodeName cfg.delimiter x.1 = Except.error m := by
      cases hd : decodeName cfg.delimiter x.1 with
      | error m => exact ⟨m, rfl⟩
      | ok r => rw [hd] at hxf; simp [isOkE] at hxf
    have hfail : ∀ b, (match decodeName cfg.delimiter x.1 with
        | Except.error er => Except.error er
        | Except.ok r => Except.ok (x, dtKey r.dt ++ [r.seq])) ≠ Except.ok b := by
      rw [hm0]
      intro b hb
      exact Except.noConfusion hb
    obtain ⟨err, herr⟩ := exMapM_error_of_mem
      (fun e => match decodeName cfg.delimiter e.1 with
        | Except.error er => Except.error er
        | Except.ok r => Except.ok (e, dtKey r.dt ++ [r.seq]))
      (glob dir (pathStem p ++ cfg.delimiter)) x hx hfail
    refine ⟨err, ?_⟩
    simp only [listVersions, getVersions]
    rw [herr]
  · intro h
    obtain ⟨vs, hvs, hperm, hpw⟩ := getVersions_spec cfg dir p h
    have hall : ∀ e ∈ vs, decodeName cfg.delimiter e.1 = Except.ok (recD cfg.delimiter e.1) := by
      intro e he
      have hme : e ∈ glob dir (pathStem p ++ cfg.delimiter) := hperm.subset he
      have := h e hme
      cases hd : decodeName cfg.delimiter e.1 with
      | error er => rw [hd] at this; simp [isOkE] at this
      | ok r => simp [recD, hd]
    have hfk : ∀ e ∈ vs, (match decodeName cfg.delimiter e.1 with
        | Except.error er => Except.error er
        | Except.ok r =>
          Except.ok (⟨e.1, r.dt, e.2.content.length, r.seq,
            r.spec.tz.val, r.spec.src.val⟩ : OutRec)) =
        Except.ok (⟨e.1, (recD cfg.delimiter e.1).dt, e.2.content.length,
          (recD cfg.delimiter e.1).seq, (recD cfg.delimiter e.1).spec.tz.val,
          (recD cfg.delimiter e.1).spec.src.val⟩ : OutRec) := by
      intro e he
      rw [hall e he]
    refine ⟨vs.map (fun e => (⟨e.1, (recD cfg.delimiter e.1).dt, e.2.content.length,
      (recD cfg.delimiter e.1).seq, (recD cfg.delimiter e.1).spec.tz.val,
      (recD cfg.delimiter e.1).spec.src.val⟩ : OutRec)), ?_, ?_, ?_⟩
    · simp only [listVersions]
      rw [hvs]
      exact exMapM_congr_ok _ _ _ hfk
    · rw [List.map_map]
      have hco : ((fun o : OutRec => o.path) ∘ fun e : Entry =>
          (⟨e.1, (recD cfg.delimiter e.1).dt, e.2.content.length,
            (recD cfg.delimiter e.1).seq, (recD cfg.delimiter e.1).spec.tz.val,
            (recD cfg.delimiter e.1).spec.src.val⟩ : OutRec)) = fun e : Entry => e.1 := rfl
      rw [hco]
      exact hperm.map _
    · rw [List.pairwise_map]
      refine List.Pairwise.imp_of_mem ?_ hpw
      intro a b ha hb hr
      have hka : nameKey cfg.delimiter a.1 =
          dtKey (recD cfg.delimiter a.1).dt ++ [(recD cfg.delimiter a.1).seq] := by
        unfold nameKey
        rw [hall a ha]
      have hkb : nameKey cfg.delimiter b.1 =
          dtKey (recD cfg.delimiter b.1).dt ++ [(recD cfg.delimiter b.1).seq] := by
        unfold nameKey
        rw [hall b hb]
      rw [hka, hkb] at hr
      exact hr

theorem c3_witness :
    (∃ err, listVersions cfgD dirBad "a.txt".toList = Except.error err) ∧
    (∃ out, listVersions cfgD dirL2 "a.txt".toList = Except.ok out ∧
      List.Perm (out.map (fun o => o.path))
        ((glob dirL2 (pathStem "a.txt".toList ++ cfgD.delimiter)).map (fun e => e.1)) ∧
      out.Pairwise (fun a b =>
        lexLt (dtKey a.dt ++ [a.seq]) (dtKey b.dt ++ [b.seq]) = false)) :=
  ⟨(c3_list_amended cfgD dirBad "a.txt".toList).1 (by decide),
   (c3_list_amended cfgD dirL2 "a.txt".toList).2 (by decide)⟩

/-- C3 counterexample: with one undecodable file matching the stem glob,
list_versions raises (the _VersionError propagates) instead of returning
normally with the entry dropped, refuting the claimed silent-drop behavior. -/
theorem c3_counterexample_list_raises :
    listVersions cfgD dirBad "a.txt".toList = Except.error
      (PyErr.vError "Invalid version filename format: wrong number of parts".toList) := by
  decide

/-- C7 (amended): with maxVersions set, if some existing file matching the
stem glob fails to decode, the decode failure raised during the retention
scan (or already during sequence allocation) propagates and the create call
fails with an error; the failure is not confined to that version, no warning
is returned, and create does not return successfully.  (The except clause in
_cleanup_old_versions that would report "Error analyzing versions" is
unreachable because _get_versions itself raises first, outside the try.) -/
theorem c7_create_fails_on_retention_decode_failure (k : Codec) (cfg : Config)
    (dir : FS) (p ts : Str) (srcF : FileData) (K : Nat)
    (hK : cfg.max_versions = some (K + 1))
    (hbad : ∃ e ∈ glob dir (pathStem p ++ cfg.delimiter),
      isOkE (decodeName cfg.delimiter e.1) = false) :
    ∃ err, createVersion k cfg dir p ts srcF = Except.error err := by
  obtain ⟨x, hx, hxf⟩ := hbad
  have hxdir : x ∈ dir ∧ (pathStem p ++ cfg.delimiter).isPrefixOf x.1 = true := by
    simpa [glob, List.mem_filter] using hx
  have hfailx : ∀ b, decodeName cfg.delimiter x.1 ≠ Except.ok b := by
    intro b hb
    rw [hb] at hxf
    simp [isOkE] at hxf
  cases hgvp : getVersionPath cfg dir p ts with
  | error e =>
    refine ⟨wrapCreateErr e, ?_⟩
    simp only [createVersion]
    rw [hgvp]
  | ok fullName =>
    obtain ⟨n, hgn, hfn⟩ : ∃ n, getVersionName cfg dir p ts = Except.ok n ∧
        fullName = n ++ compExtSuffix cfg.compression := by
      simp only [getVersionPath] at hgvp
      cases hgn : getVersionName cfg dir p ts with
      | error e => rw [hgn] at hgvp; exact Except.noConfusion hgvp
      | ok n0 => rw [hgn] at hgvp; exact ⟨n0, rfl, (Except.ok.inj hgvp).symm⟩
    obtain ⟨sq, hsq, hneq⟩ : ∃ sq,
        getNextSequence cfg dir ts (pathStem p) = Except.ok sq ∧
        n = pathStem p ++ cfg.delimiter ++ ts ++ ['_'] ++ pad3 sq ++
          cfg.delimiter ++ specOf cfg ++ pathSuffix p := by
      simp only [getVersionName] at hgn
      cases hsq : getNextSequence cfg dir ts (pathStem p) with
      | error e => rw [hsq] at hgn; exact Except.noConfusion hgn
      | ok sq =>
        rw [hsq] at hgn
        dsimp only at hgn
        by_cases hgt : 999 < sq
        · rw [if_pos hgt] at hgn; exact Except.noConfusion hgn
        · rw [if_neg hgt] at hgn
          exact ⟨sq, rfl, (Except.ok.inj hgn).symm⟩
    have hxne : x.1 ≠ fullName := by
      intro heq
      have hpre : (pathStem p ++ cfg.delimiter ++ ts ++ ['_']).isPrefixOf x.1 = true := by
        rw [heq, hfn, hneq, isPrefixOf_eq_true_iff]
        exact ⟨pad3 sq ++ cfg.delimiter ++ specOf cfg ++ pathSuffix p ++
          compExtSuffix cfg.compression, by simp [List.append_assoc]⟩
      have hxg : x ∈ glob dir (pathStem p ++ cfg.delimiter ++ ts ++ ['_']) := by
        unfold glob
        rw [List.mem_filter]
        exact ⟨hxdir.1, hpre⟩
      obtain ⟨err0, herr0⟩ := exMapM_error_of_mem
        (fun e => decodeName cfg.delimiter e.1) _ x hxg hfailx
      simp only [getNextSequence] at hsq
      have hne : (glob dir (pathStem p ++ cfg.delimiter ++ ts ++ ['_'])).isEmpty = false := by
        cases hgl : glob dir (pathStem p ++ cfg.delimiter ++ ts ++ ['_']) with
        | nil => rw [hgl] at hxg; exact absurd hxg (List.not_mem_nil x)
        | cons a as => rfl
      rw [hne] at hsq
      simp only [Bool.false_eq_true, if_false] at hsq
      rw [herr0] at hsq
      exact Except.noConfusion hsq
    have hx1 : x ∈ glob (writeFile dir fullName (compressFile k cfg.compression srcF))
        (pathStem p ++ cfg.delimiter) := by
      simp only [glob, writeFile, List.mem_filter, List.mem_append]
      refine ⟨Or.inl ?_, hxdir.2⟩
      simp only [List.mem_filter, hxdir.1, true_and]
      simp [hxne]
    have hfailk : ∀ b, (match decodeName cfg.delimiter x.1 with
        | Except.error er => Except.error er
        | Except.ok r => Except.ok (x, dtKey r.dt ++ [r.seq])) ≠ Except.ok b := by
      cases hd : decodeName cfg.delimiter x.1 with
      | error m => intro b hb; exact Except.noConfusion hb
      | ok r => exact absurd hd (hfailx r)
    obtain ⟨err, herr⟩ := exMapM_error_of_mem
      (fun e => match decodeName cfg.delimiter e.1 with
        | Except.error er => Except.error er
        | Except.ok r => Except.ok (e, dtKey r.dt ++ [r.seq]))
      (glob (writeFile dir fullName (compressFile k cfg.compression srcF))
        (pathStem p ++ cfg.delimiter)) x hx1 hfailk
    have hgv : getVersions cfg (writeFile dir fullName (compressFile k cfg.compression srcF)) p =
        Except.error err := by
      simp only [getVersions]
      rw [herr]
    refine ⟨wrapCreateErr err, ?_⟩
    simp only [createVersion]
    rw [hgvp]
    simp only [cleanupOldVersions, hK]
    rw [if_neg (by omega : ¬ (K + 1 = 0)), hgv]

theorem c7_witness :
    ∃ err, createVersion idCodec cfgM1 dirBad "a.txt".toList
      "20240102.120000".toList fd0 = Except.error err :=
  c7_create_fails_on_retention_decode_failure idCodec cfgM1 dirBad "a.txt".toList
    "20240102.120000".toList fd0 0 (by decide) (by decide)

/-- C7 counterexample: with max_versions = 1 and one undecodable file matching
the stem glob, create_version raises an OSError (wrapping the _VersionError)
instead of returning successfully with the failure reported in the warning
string. -/
theorem c7_counterexample_create_raises :
    createVersion idCodec cfgM1 dirBad "a.txt".toList "20240102.120000".toList fd0 =
      Except.error (PyErr.osError
        "Invalid version filename format: wrong number of parts".toList) := by
  decide

theorem mem_dedupFirstAux :
    ∀ (l seen : List Str) (x : Str),
      x ∈ dedupFirstAux seen l ↔ (x ∈ l ∧ seen.contains x = false) := by
  intro l
  induction l with
  | nil => intro seen x; simp [dedupFirstAux]
  | cons a as ih =>
    intro seen x
    by_cases hc : seen.contains a = true
    · simp only [dedupFirstAux, hc, if_true, ih]
      constructor
      · rintro ⟨hxs, hnc⟩
        exact ⟨List.mem_cons_of_mem _ hxs, hnc⟩
      · rintro ⟨hx, hnc⟩
        rcases List.mem_cons.mp hx with rfl | hxs
        · rw [hc] at hnc; exact absurd hnc (by simp)
        · exact ⟨hxs, hnc⟩
    · have hcf : seen.contains a = false := by
        cases hv : seen.contains a with
        | false => rfl
        | true => exact absurd hv hc
      simp only [dedupFirstAux, hcf, Bool.false_eq_true, if_false, List.mem_cons, ih]
      constructor
      · rintro (rfl | ⟨hxs, hnc⟩)
        · exact ⟨Or.inl rfl, hcf⟩
        · have : seen.contains x = false := by
            simp only [List.contains_cons, Bool.or_eq_false_iff] at hnc
            exact hnc.2
          refine ⟨Or.inr hxs, this⟩
      · rintro ⟨rfl | hxs, hnc⟩
        · exact Or.inl rfl
        · by_cases hxa : x = a
          · exact Or.inl hxa
          · right
            refine ⟨hxs, ?_⟩
            simp only [List.contains_cons, Bool.or_eq_false_iff]
            refine ⟨?_, hnc⟩
            cases hb : x == a with
            | false => rfl
            | true => exact absurd (by simpa using hb) hxa
  
theorem mem_dedupFirst (l : List Str) (x : Str) : x ∈ dedupFirst l ↔ x ∈ l := by
  unfold dedupFirst
  rw [mem_dedupFirstAux]
  simp [List.contains]

theorem one_lt_length_of_two_mem {m : List Str} {a b : Str}
    (ha : a ∈ m) (hb : b ∈ m) (hab : a ≠ b) : 1 < m.length := by
  cases m with
  | nil => exact absurd ha (List.not_mem_nil a)
  | cons y t =>
    cases t with
    | nil =>
      have h1 : a = y := by simpa using ha
      have h2 : b = y := by simpa using hb
      exact absurd (h1.trans h2.symm) hab
    | cons z t2 => simp

theorem tzval_injective : ∀ t1 t2 : Tz, t1.val = t2.val → t1 = t2 := by
  intro t1 t2 h
  cases t1 <;> cases t2 <;> first | rfl | (exfalso; revert h; decide)

theorem srcval_injective : ∀ t1 t2 : Src, t1.val = t2.val → t1 = t2 := by
  intro t1 t2 h
  cases t1 <;> cases t2 <;> first | rfl | (exfalso; revert h; decide)

theorem cleanup_eval (cfg : Config) (dir1 : FS) (p : Str) (K : Nat)
    (hK : cfg.max_versions = some (K + 1))
    (hdec : ∀ e ∈ glob dir1 (pathStem p ++ cfg.delimiter),
      isOkE (decodeName cfg.delimiter e.1) = true) :
    ∃ vs, getVersions cfg dir1 p = Except.ok vs ∧
      List.Perm vs (glob dir1 (pathStem p ++ cfg.delimiter)) ∧
      vs.Pairwise (fun a b =>
        lexLt (nameKey cfg.delimiter a.1) (nameKey cfg.delimiter b.1) = false) ∧
      cleanupOldVersions cfg dir1 p =
        (if 1 < (dedupFirst (vs.map (fun e => (recD cfg.delimiter e.1).spec.tz.val))).length then
           Except.ok (dir1, 0, "Multiple timezone types not allowed: ".toList ++
             joinSep ", ".toList (dedupFirst (vs.map (fun e => (recD cfg.delimiter e.1).spec.tz.val))))
         else if 1 < (dedupFirst (vs.map (fun e => (recD cfg.delimiter e.1).spec.src.val))).length then
           Except.ok (dir1, 0, "Multiple source types not allowed: ".toList ++
             joinSep ", ".toList (dedupFirst (vs.map (fun e => (recD cfg.delimiter e.1).spec.src.val))))
         else
           Except.ok (removeFiles dir1 ((vs.drop (K + 1)).map (fun e => e.1)),
             Int.ofNat (vs.drop (K + 1)).length, [])) := by
  obtain ⟨vs, hvs, hperm, hpw⟩ := getVersions_spec cfg dir1 p hdec
  refine ⟨vs, hvs, hperm, hpw, ?_⟩
  have hall : ∀ e ∈ vs, decodeName cfg.delimiter e.1 = Except.ok (recD cfg.delimiter e.1) := by
    intro e he
    have hme : e ∈ glob dir1 (pathStem p ++ cfg.delimiter) := hperm.subset he
    have := hdec e hme
    cases hd : decodeName cfg.delimiter e.1 with
    | error er => rw [hd] at this; simp [isOkE] at this
    | ok r => simp [recD, hd]
  simp only [cleanupOldVersions, hK]
  rw [if_neg (by omega : ¬ (K + 1 = 0)), hvs]
  dsimp only
  rw [exMapM_congr_ok _ (fun e => recD cfg.delimiter e.1) _ hall]
  simp only [List.map_map]
  rfl

/-- C4: for a create call with maxVersions set whose post-write version set
all decodes, if the set shows more than one distinct timezone format then
retention removes nothing (the returned directory is exactly the written one),
the call returns a non-empty warning that contains "timezone" and names every
distinct timezone value; if the timezone axis is uniform but more than one
distinct timestamp source appears, the same holds with a warning naming every
distinct source value.  (When both axes are mixed the code reports only the
timezone axis, which the first conjunct covers.)  The witness instantiates the
spec scenario: one utc/modified-time version on disk plus a create under a
LOCAL/modified-time config. -/
theorem c4_mixed_metadata_warning (k : Codec) (cfg : Config) (dir : FS) (p ts : Str)
    (srcF : FileData) (K : Nat) (fullName : Str)
    (hK : cfg.max_versions = some (K + 1))
    (hgvp : getVersionPath cfg dir p ts = Except.ok fullName)
    (hdec : ∀ e ∈ glob (writeFile dir fullName (compressFile k cfg.compression srcF))
      (pathStem p ++ cfg.delimiter), isOkE (decodeName cfg.delimiter e.1) = true) :
    ((∃ e1 ∈ glob (writeFile dir fullName (compressFile k cfg.compression srcF))
        (pathStem p ++ cfg.delimiter),
      ∃ e2 ∈ glob (writeFile dir fullName (compressFile k cfg.compression srcF))
        (pathStem p ++ cfg.delimiter),
        (recD cfg.delimiter e1.1).spec.tz ≠ (recD cfg.delimiter e2.1).spec.tz) →
      ∃ w, createVersion k cfg dir p ts srcF = Except.ok
          (writeFile dir fullName (compressFile k cfg.compression srcF), fullName, 0, w) ∧
        w ≠ [] ∧ containsSub "timezone".toList w ∧
        ∀ e ∈ glob (writeFile dir fullName (compressFile k cfg.compression srcF))
          (pathStem p ++ cfg.delimiter),
          containsSub (recD cfg.delimiter e.1).spec.tz.val w) ∧
    ((∀ e1 ∈ glob (writeFile dir fullName (compressFile k cfg.compression srcF))
        (pathStem p ++ cfg.delimiter),
      ∀ e2 ∈ glob (writeFile dir fullName (compressFile k cfg.compression srcF))
        (pathStem p ++ cfg.delimiter),
        (recD cfg.delimiter e1.1).spec.tz = (recD cfg.delimiter e2.1).spec.tz) →
      (∃ e1 ∈ glob (writeFile dir fullName (compressFile k cfg.compression srcF))
        (pathStem p ++ cfg.delimiter),
      ∃ e2 ∈ glob (writeFile dir fullName (compressFile k cfg.compression srcF))
        (pathStem p ++ cfg.delimiter),
        (recD cfg.delimiter e1.1).spec.src ≠ (recD cfg.delimiter e2.1).spec.src) →
      ∃ w, createVersion k cfg dir p ts srcF = Except.ok
          (writeFile dir fullName (compressFile k cfg.compression srcF), fullName, 0, w) ∧
        w ≠ [] ∧
        ∀ e ∈ glob (writeFile dir fullName (compressFile k cfg.compression srcF))
          (pathStem p ++ cfg.delimiter),
          containsSub (recD cfg.delimiter e.1).spec.src.val w) := by
  obtain ⟨vs, hvs, hperm, hpw, hclean⟩ := cleanup_eval cfg
    (writeFile dir fullName (compressFile k cfg.compression srcF)) p K hK hdec
  constructor
  · rintro ⟨e1, he1, e2, he2, hne⟩
    have he1v : e1 ∈ vs := hperm.mem_iff.mpr he1
    have he2v : e2 ∈ vs := hperm.mem_iff.mpr he2
    have hv12 : (recD cfg.delimiter e1.1).spec.tz.val ≠
        (recD cfg.delimiter e2.1).spec.tz.val := by
      intro hv
      exact hne (tzval_injective _ _ hv)
    have hm1 : (recD cfg.delimiter e1.1).spec.tz.val ∈
        vs.map (fun e => (recD cfg.delimiter e.1).spec.tz.val) :=
      List.mem_map_of_mem _ he1v
    have hm2 : (recD cfg.delimiter e2.1).spec.tz.val ∈
        vs.map (fun e => (recD cfg.delimiter e.1).spec.tz.val) :=
      List.mem_map_of_mem _ he2v
    have hlen := one_lt_length_of_two_mem
      ((mem_dedupFirst _ _).mpr hm1) ((mem_dedupFirst _ _).mpr hm2) hv12
    refine ⟨"Multiple timezone types not allowed: ".toList ++ joinSep ", ".toList
      (dedupFirst (vs.map (fun e => (recD cfg.delimiter e.1).spec.tz.val))), ?_, ?_, ?_, ?_⟩
    · simp only [createVersion]
      rw [hgvp]
      dsimp only
      rw [hclean, if_pos hlen]
      rfl
    · simp
    · refine ⟨"Multiple ".toList, " types not allowed: ".toList ++ joinSep ", ".toList
        (dedupFirst (vs.map (fun e => (recD cfg.delimiter e.1).spec.tz.val))), ?_⟩
      have hstr : "Multiple timezone types not allowed: ".toList =
          "Multiple ".toList ++ "timezone".toList ++ " types not allowed: ".toList := by decide
      rw [hstr]
      simp [List.append_assoc]
    · intro e he
      have hev : e ∈ vs := hperm.mem_iff.mpr he
      have hmem : (recD cfg.delimiter e.1).spec.tz.val ∈
          dedupFirst (vs.map (fun e => (recD cfg.delimiter e.1).spec.tz.val)) :=
        (mem_dedupFirst _ _).mpr (List.mem_map_of_mem _ hev)
      obtain ⟨l, r, hw⟩ := containsSub_joinSep ", ".toList _ _ hmem
      exact ⟨"Multiple timezone types not allowed: ".toList ++ l, r,
        by rw [hw]; simp [List.append_assoc]⟩
  · rintro huni ⟨e1, he1, e2, he2, hne⟩
    have hconst : ∀ v ∈ vs.map (fun e => (recD cfg.delimiter e.1).spec.tz.val),
        v = (recD cfg.delimiter e1.1).spec.tz.val := by
      intro v hv
      obtain ⟨x, hxv, rfl⟩ := List.mem_map.mp hv
      have hxg : x ∈ glob (writeFile dir fullName (compressFile k cfg.compression srcF))
          (pathStem p ++ cfg.delimiter) := hperm.subset hxv
      rw [huni x hxg e1 he1]
    have hle := dedupFirst_const_length _ _ hconst
    have hnotz : ¬ (1 < (dedupFirst (vs.map
        (fun e => (recD cfg.delimiter e.1).spec.tz.val))).length) := by omega
    have he1v : e1 ∈ vs := hperm.mem_iff.mpr he1
    have he2v : e2 ∈ vs := hperm.mem_iff.mpr he2
    have hv12 : (recD cfg.delimiter e1.1).spec.src.val ≠
        (recD cfg.delimiter e2.1).spec.src.val := by
      intro hv
      exact hne (srcval_injective _ _ hv)
    have hm1 : (recD cfg.delimiter e1.1).spec.src.val ∈
        vs.map (fun e => (recD cfg.delimiter e.1).spec.src.val) :=
      List.mem_map_of_mem _ he1v
    have hm2 : (recD cfg.delimiter e2.1).spec.src.val ∈
        vs.map (fun e => (recD cfg.delimiter e.1).spec.src.val) :=
      List.mem_map_of_mem _ he2v
    have hlen := one_lt_length_of_two_mem
      ((mem_dedupFirst _ _).mpr hm1) ((mem_dedupFirst _ _).mpr hm2) hv12
    refine ⟨"Multiple source types not allowed: ".toList ++ joinSep ", ".toList
      (dedupFirst (vs.map (fun e => (recD cfg.delimiter e.1).spec.src.val))), ?_, ?_, ?_⟩
    · simp only [createVersion]
      rw [hgvp]
      dsimp only
      rw [hclean, if_neg hnotz, if_pos hlen]
      rfl
    · simp
    · intro e he
      have hev : e ∈ vs := hperm.mem_iff.mpr he
      have hmem : (recD cfg.delimiter e.1).spec.src.val ∈
          dedupFirst (vs.map (fun e => (recD cfg.delimiter e.1).spec.src.val)) :=
        (mem_dedupFirst _ _).mpr (List.mem_map_of_mem _ hev)
      obtain ⟨l, r, hw⟩ := containsSub_joinSep ", ".toList _ _ hmem
      exact ⟨"Multiple source types not allowed: ".toList ++ l, r,
        by rw [hw]; simp [List.append_assoc]⟩

theorem c4_witness :
    ∃ w, createVersion idCodec cfgLM5 dirU1 "a.txt".toList "20240301.120000".toList fd0 =
        Except.ok (writeFile dirU1 "a--20240301.120000_001--loc_mod.txt".toList
          (compressFile idCodec Comp.NONE fd0),
          "a--20240301.120000_001--loc_mod.txt".toList, 0, w) ∧
      w ≠ [] ∧ containsSub "timezone".toList w ∧
      ∀ e ∈ glob (writeFile dirU1 "a--20240301.120000_001--loc_mod.txt".toList
          (compressFile idCodec Comp.NONE fd0))
        (pathStem "a.txt".toList ++ cfgLM5.delimiter),
        containsSub (recD cfgLM5.delimiter e.1).spec.tz.val w :=
  (c4_mixed_metadata_warning idCodec cfgLM5 dirU1 "a.txt".toList "20240301.120000".toList
    fd0 4 "a--20240301.120000_001--loc_mod.txt".toList (by decide) (by decide)
    (by decide)).1 (by decide)

theorem glob_removeFiles (d : FS) (ns : List Str) (pre : Str) :
    glob (removeFiles d ns) pre = (glob d pre).filter (fun e => !(ns.contains e.1)) := by
  unfold glob removeFiles
  exact List.filter_comm _ _ d

theorem nodup_names_writeFile (dir : FS) (n : Str) (d : FileData)
    (h : (dir.map (fun e => e.1)).Nodup) :
    ((writeFile dir n d).map (fun e => e.1)).Nodup := by
  unfold writeFile
  rw [List.map_append]
  rw [List.nodup_append]
  refine ⟨?_, by simp, ?_⟩
  · exact ((List.filter_sublist dir).map _).nodup h
  · intro x hx hy
    have hxn : x = n := by simpa using hy
    subst hxn
    obtain ⟨e, he, hen⟩ := List.mem_map.mp hx
    have := (List.mem_filter.mp he).2
    rw [hen] at this
    simp at this

theorem nodup_names_glob (dir : FS) (pre : Str)
    (h : (dir.map (fun e => e.1)).Nodup) :
    ((glob dir pre).map (fun e => e.1)).Nodup :=
  ((List.filter_sublist dir).map _).nodup h

/-- C1: retention invariant.  For a create call with maxVersions = K + 1 on a
duplicate-free directory, when name computation succeeds and every file of the
post-write version set decodes with the configuration's own timezone format
and timestamp source (a single timezone/source across the set, the new version
included), the call succeeds with an empty warning and: the version set
immediately afterwards has at most K + 1 entries; the removed count is the
pre-retention size minus K + 1; the pre-retention name set splits (up to
permutation) into the retained names plus the removed names; and every removed
entry's (timestamp, sequence) key is at most the key of every retained entry -
the retained entries are exactly the K + 1 most recent. -/
theorem c1_retention_invariant (k : Codec) (cfg : Config) (dir : FS) (p ts : Str)
    (srcF : FileData) (K : Nat) (fullName : Str)
    (hK : cfg.max_versions = some (K + 1))
    (hnodup : (dir.map (fun e => e.1)).Nodup)
    (hgvp : getVersionPath cfg dir p ts = Except.ok fullName)
    (hdec : ∀ e ∈ glob (writeFile dir fullName (compressFile k cfg.compression srcF))
      (pathStem p ++ cfg.delimiter), isOkE (decodeName cfg.delimiter e.1) = true)
    (huni : ∀ e ∈ glob (writeFile dir fullName (compressFile k cfg.compression srcF))
      (pathStem p ++ cfg.delimiter),
      (recD cfg.delimiter e.1).spec = ⟨cfg.timezone_format, cfg.timestamp_format⟩) :
    ∃ dir2 rem,
      createVersion k cfg dir p ts srcF = Except.ok (dir2, fullName, rem, []) ∧
      (glob dir2 (pathStem p ++ cfg.delimiter)).length ≤ K + 1 ∧
      rem = (glob (writeFile dir fullName (compressFile k cfg.compression srcF))
        (pathStem p ++ cfg.delimiter)).length - (K + 1) ∧
      ∃ removedNames,
        List.Perm
          ((glob (writeFile dir fullName (compressFile k cfg.compression srcF))
            (pathStem p ++ cfg.delimiter)).map (fun e => e.1))
          (((glob dir2 (pathStem p ++ cfg.delimiter)).map (fun e => e.1)) ++ removedNames) ∧
        removedNames.length = rem ∧
        ∀ x ∈ removedNames, ∀ y ∈ (glob dir2 (pathStem p ++ cfg.delimiter)).map (fun e => e.1),
          lexLt (nameKey cfg.delimiter y) (nameKey cfg.delimiter x) = false := by
  obtain ⟨vs, hvs, hperm, hpw, hclean⟩ := cleanup_eval cfg
    (writeFile dir fullName (compressFile k cfg.compression srcF)) p K hK hdec
  have h1 : ¬ (1 < (dedupFirst (vs.map
      (fun e => (recD cfg.delimiter e.1).spec.tz.val))).length) := by
    have hconst : ∀ v ∈ vs.map (fun e => (recD cfg.delimiter e.1).spec.tz.val),
        v = cfg.timezone_format.val := by
      intro v hv
      obtain ⟨x, hxv, rfl⟩ := List.mem_map.mp hv
      rw [huni x (hperm.subset hxv)]
    have := dedupFirst_const_length _ _ hconst
    omega
  have h2 : ¬ (1 < (dedupFirst (vs.map
      (fun e => (recD cfg.delimiter e.1).spec.src.val))).length) := by
    have hconst : ∀ v ∈ vs.map (fun e => (recD cfg.delimiter e.1).spec.src.val),
        v = cfg.timestamp_format.val := by
      intro v hv
      obtain ⟨x, hxv, rfl⟩ := List.mem_map.mp hv
      rw [huni x (hperm.subset hxv)]
    have := dedupFirst_const_length _ _ hconst
    omega
  have hnd1 : ((writeFile dir fullName (compressFile k cfg.compression srcF)).map
      (fun e => e.1)).Nodup := nodup_names_writeFile dir fullName _ hnodup
  have hndg : ((glob (writeFile dir fullName (compressFile k cfg.compression srcF))
      (pathStem p ++ cfg.delimiter)).map (fun e => e.1)).Nodup :=
    nodup_names_glob _ _ hnd1
  have hpermN : List.Perm (vs.map (fun e => e.1))
      ((glob (writeFile dir fullName (compressFile k cfg.compression srcF))
        (pathStem p ++ cfg.delimiter)).map (fun e => e.1)) := hperm.map _
  have hndvs : (vs.map (fun e => e.1)).Nodup := hpermN.nodup_iff.mpr hndg
  have hdisj : List.Disjoint ((vs.map (fun e => e.1)).take (K + 1))
      ((vs.map (fun e => e.1)).drop (K + 1)) := by
    have h := hndvs
    rw [← List.take_append_drop (K + 1) (vs.map (fun e => e.1))] at h
    exact (List.nodup_append.mp h).2.2
  have hfil : vs.filter (fun e => !(((vs.drop (K + 1)).map (fun e => e.1)).contains e.1)) =
      vs.take (K + 1) := by
    have hq2 : ∀ a ∈ vs.drop (K + 1),
        ¬ ((fun e => !(((vs.drop (K + 1)).map (fun e => e.1)).contains e.1)) a = true) := by
      intro a ha
      have hm : a.1 ∈ (vs.drop (K + 1)).map (fun e => e.1) := List.mem_map_of_mem _ ha
      have hc : ((vs.drop (K + 1)).map (fun e => e.1)).contains a.1 = true := by simpa using hm
      simp only [hc]
      decide
    have hq1 : ∀ a ∈ vs.take (K + 1),
        (fun e => !(((vs.drop (K + 1)).map (fun e => e.1)).contains e.1)) a = true := by
      intro a ha
      have hmem : a.1 ∈ (vs.map (fun e => e.1)).take (K + 1) := by
        rw [← List.map_take]
        exact List.mem_map_of_mem _ ha
      have hnot : a.1 ∉ (vs.map (fun e => e.1)).drop (K + 1) := fun hc => hdisj hmem hc
      have hnot2 : a.1 ∉ (vs.drop (K + 1)).map (fun e => e.1) := by
        rw [List.map_drop]
        exact hnot
      cases hb : ((vs.drop (K + 1)).map (fun e => e.1)).contains a.1 with
      | false => simp only [hb]; decide
      | true =>
        have : a.1 ∈ (vs.drop (K + 1)).map (fun e => e.1) := by simpa using hb
        exact absurd this hnot2
    calc vs.filter (fun e => !(((vs.drop (K + 1)).map (fun e => e.1)).contains e.1))
        = (vs.take (K + 1) ++ vs.drop (K + 1)).filter
            (fun e => !(((vs.drop (K + 1)).map (fun e => e.1)).contains e.1)) := by
          rw [List.take_append_drop]
      _ = (vs.take (K + 1)).filter
            (fun e => !(((vs.drop (K + 1)).map (fun e => e.1)).contains e.1)) ++
          (vs.drop (K + 1)).filter
            (fun e => !(((vs.drop (K + 1)).map (fun e => e.1)).contains e.1)) :=
          List.filter_append _ _
      _ = vs.take (K + 1) ++ [] := by
          rw [List.filter_eq_self.mpr hq1, List.filter_eq_nil.mpr hq2]
      _ = vs.take (K + 1) := List.append_nil _
  have hglob2 : glob (removeFiles (writeFile dir fullName (compressFile k cfg.compression srcF))
      ((vs.drop (K + 1)).map (fun e => e.1))) (pathStem p ++ cfg.delimiter) =
      (glob (writeFile dir fullName (compressFile k cfg.compression srcF))
        (pathStem p ++ cfg.delimiter)).filter
        (fun e => !(((vs.drop (K + 1)).map (fun e => e.1)).contains e.1)) :=
    glob_removeFiles _ _ _
  have hg2p : List.Perm (glob (removeFiles (writeFile dir fullName
      (compressFile k cfg.compression srcF)) ((vs.drop (K + 1)).map (fun e => e.1)))
      (pathStem p ++ cfg.delimiter)) (vs.take (K + 1)) := by
    rw [hglob2, ← hfil]
    exact (hperm.symm).filter _
  refine ⟨removeFiles (writeFile dir fullName (compressFile k cfg.compression srcF))
    ((vs.drop (K + 1)).map (fun e => e.1)), (vs.drop (K + 1)).length, ?_, ?_, ?_, ?_⟩
  · simp only [createVersion]
    rw [hgvp]
    dsimp only
    rw [hclean, if_neg h1, if_neg h2]
    dsimp only
    have hnn : ¬ (Int.ofNat (List.drop (K + 1) vs).length < 0) :=
      Int.not_lt.mpr (Int.ofNat_nonneg _)
    rw [if_neg hnn]
    rfl
  · rw [hg2p.length_eq, List.length_take]
    omega
  · rw [List.length_drop, ← hperm.length_eq]
  · refine ⟨(vs.drop (K + 1)).map (fun e => e.1), ?_, by rw [List.length_map, List.length_drop, hperm.length_eq], ?_⟩
    · have hsplit : vs.map (fun e => e.1) =
          (vs.take (K + 1)).map (fun e => e.1) ++ (vs.drop (K + 1)).map (fun e => e.1) := by
        rw [← List.map_append, List.take_append_drop]
      refine (hpermN.symm).trans ?_
      rw [hsplit]
      exact List.Perm.append_right _ ((hg2p.map _).symm)
    · intro x hx y hy
      obtain ⟨e, he, rfl⟩ := List.mem_map.mp hx
      have hy2 : y ∈ (vs.take (K + 1)).map (fun e => e.1) := ((hg2p.map _).mem_iff).mp hy
      obtain ⟨f, hf, rfl⟩ := List.mem_map.mp hy2
      have hpw2 := hpw
      rw [← List.take_append_drop (K + 1) vs] at hpw2
      exact (List.pairwise_append.mp hpw2).2.2 f hf e he

theorem c1_witness :
    ∃ dir2 rem,
      createVersion idCodec cfgM1 dirL2 "a.txt".toList "20240103.120000".toList fd0 =
        Except.ok (dir2, "a--20240103.120000_001--loc_mod.txt".toList, rem, []) ∧
      (glob dir2 (pathStem "a.txt".toList ++ cfgM1.delimiter)).length ≤ 0 + 1 ∧
      rem = (glob (writeFile dirL2 "a--20240103.120000_001--loc_mod.txt".toList
        (compressFile idCodec Comp.NONE fd0))
        (pathStem "a.txt".toList ++ cfgM1.delimiter)).length - (0 + 1) ∧
      ∃ removedNames,
        List.Perm
          ((glob (writeFile dirL2 "a--20240103.120000_001--loc_mod.txt".toList
            (compressFile idCodec Comp.NONE fd0))
            (pathStem "a.txt".toList ++ cfgM1.delimiter)).map (fun e => e.1))
          (((glob dir2 (pathStem "a.txt".toList ++ cfgM1.delimiter)).map (fun e => e.1)) ++
            removedNames) ∧
        removedNames.length = rem ∧
        ∀ x ∈ removedNames, ∀ y ∈ (glob dir2 (pathStem "a.txt".toList ++
          cfgM1.delimiter)).map (fun e => e.1),
          lexLt (nameKey cfgM1.delimiter y) (nameKey cfgM1.delimiter x) = false :=
  c1_retention_invariant idCodec cfgM1 dirL2 "a.txt".toList "20240103.120000".toList fd0 0
    "a--20240103.120000_001--loc_mod.txt".toList (by decide) (by decide) (by decide)
    (by decide) (by decide)

end PFV

